import Mathlib

/-!
Verification development for the iteration control loop, signal parser,
process runner and history recorder of the `ralph` repository.

Texts are modelled as `List Char` (JavaScript strings over their character
sequence; all pattern literals involved are ASCII).  The three promise-tag
regular expressions of `src/lib/promiseParser.ts`

  COMPLETE: /<promise>\s*COMPLETE\s*<\/promise>/i
  BLOCKED:  /<promise>\s*BLOCKED:\s*(.+?)\s*<\/promise>/i
  DECIDE:   /<promise>\s*DECIDE:\s*(.+?)\s*<\/promise>/i

are hand-compiled to deterministic matchers that realise exactly the
ECMAScript backtracking search: the overall match is the leftmost position
at which a match exists; a greedy `\s*` tries the longest whitespace run
first and backtracks towards shorter ones; the lazy `(.+?)` tries one
character first and grows; `.` matches every character except the four
line terminators.  Where a greedy `\s*` is followed by a literal whose
first character can never be whitespace (`C`, `B`, `D` after the first
`\s*` of each pattern), backtracking can never succeed, so it is compiled
to plain maximal-munch whitespace skipping.
-/

namespace Ralph

/-- The character set matched by ECMAScript `\s` (WhiteSpace and
LineTerminator productions). -/
def jsWsChars : List Char :=
  ['\t', '\n', '\x0b', '\x0c', '\r', ' ', '\u00A0', '\u1680', '\u2000',
   '\u2001', '\u2002', '\u2003', '\u2004', '\u2005', '\u2006', '\u2007',
   '\u2008', '\u2009', '\u200A', '\u2028', '\u2029', '\u202F', '\u205F',
   '\u3000', '\uFEFF']

/-- Whether `c` is matched by `\s` in an ECMAScript pattern. -/
def isJsWs (c : Char) : Bool := jsWsChars.contains c

/-- Whether `c` is an ECMAScript line terminator, i.e. a character NOT
matched by `.` in a pattern without the `s` flag. -/
def isLineTerm (c : Char) : Bool :=
  c = '\n' || c = '\r' || c = '\u2028' || c = '\u2029'

/-- Case-insensitive literal matching: `pat` is the (lowercase) pattern
literal; on success returns the consumed characters of `s` (original
case) and the remainder.  Realises a literal inside an `/i` pattern. -/
def ciStrip : List Char → List Char → Option (List Char × List Char)
  | [], s => some ([], s)
  | _ :: _, [] => none
  | p :: ps, c :: cs =>
      if c.toLower = p then
        match ciStrip ps cs with
        | some (m, r) => some (c :: m, r)
        | none => none
      else none

/-- Maximal-munch `\s*`: splits off the longest whitespace run. -/
def skipWsSplit : List Char → List Char × List Char
  | [] => ([], [])
  | c :: cs =>
      if isJsWs c then
        let (w, r) := skipWsSplit cs
        (c :: w, r)
      else ([], c :: cs)

/-- All ways a greedy `\s*` can split the input, longest consumed run
first — the order in which an ECMAScript engine backtracks. -/
def wsAlts : List Char → List (List Char × List Char)
  | [] => [([], [])]
  | c :: cs =>
      if isJsWs c then
        (wsAlts cs).map (fun p => (c :: p.1, p.2)) ++ [([], c :: cs)]
      else [([], c :: cs)]

/-- Matches `\s*</promise>` with greedy backtracking on the `\s*`.
Returns the consumed text (whitespace plus closing literal, original
case) and the remainder. -/
def tryClose (s : List Char) : Option (List Char × List Char) :=
  (wsAlts s).findSome? fun p =>
    match ciStrip "</promise>".data p.2 with
    | some (m, r) => some (p.1 ++ m, r)
    | none => none

/-- Matches the lazy `(.+?)\s*</promise>`: grows the capture one
character at a time (never across a line terminator, since `.` does not
match those), checking after each step whether `\s*</promise>` follows.
Returns (capture, consumed tail, remainder). -/
def tryLazy (brev : List Char) : List Char → Option (List Char × List Char × List Char)
  | [] => none
  | c :: cs =>
      if isLineTerm c then none
      else
        match tryClose cs with
        | some (tm, r) => some ((c :: brev).reverse, tm, r)
        | none => tryLazy (c :: brev) cs

/-- Attempt of the COMPLETE pattern at the start of `s`; returns the
matched text (`match[0]`).  Both inner `\s*` are compiled greedily: the
following literals start with `c` resp. `<`, which `\s` never matches,
so backtracking cannot help. -/
def matchCompleteAt (s : List Char) : Option (List Char) :=
  match ciStrip "<promise>".data s with
  | none => none
  | some (m1, r1) =>
      let (w1, r2) := skipWsSplit r1
      match ciStrip "complete".data r2 with
      | none => none
      | some (m2, r3) =>
          let (w2, r4) := skipWsSplit r3
          match ciStrip "</promise>".data r4 with
          | none => none
          | some (m3, _) => some (m1 ++ w1 ++ m2 ++ w2 ++ m3)

/-- Attempt of the BLOCKED/DECIDE pattern shape
`<promise>\s*KW\s*(.+?)\s*</promise>` at the start of `s`, where `kw` is
the lowercase keyword-with-colon literal (`blocked:` or `decide:`).
Returns (`match[0]`, `match[1]`).  The `\s*` before the keyword is
maximal-munch (the keyword starts with a letter); the `\s*` before the
capture backtracks longest-first against the lazy capture, exactly as
the engine explores the alternatives. -/
def matchPayloadAt (kw : List Char) (s : List Char) : Option (List Char × List Char) :=
  match ciStrip "<promise>".data s with
  | none => none
  | some (m1, r1) =>
      let (w1, r2) := skipWsSplit r1
      match ciStrip kw r2 with
      | none => none
      | some (m2, r3) =>
          (wsAlts r3).findSome? fun p =>
            match tryLazy [] p.2 with
            | some (b, tm, _) => some (m1 ++ w1 ++ m2 ++ p.1 ++ b ++ tm, b)
            | none => none

/-- Leftmost search for the COMPLETE pattern (`String.prototype.match`
without the `g` flag scans start positions left to right). -/
def findComplete : List Char → Option (List Char)
  | [] => none
  | c :: cs =>
      match matchCompleteAt (c :: cs) with
      | some raw => some raw
      | none => findComplete cs

/-- Leftmost search for the BLOCKED/DECIDE pattern shape. -/
def findPayload (kw : List Char) : List Char → Option (List Char × List Char)
  | [] => none
  | c :: cs =>
      match matchPayloadAt kw (c :: cs) with
      | some m => some m
      | none => findPayload kw cs

/-- `PromiseTagType` from `src/types/index.ts` (`null` is represented by
`Option` at the use sites). -/
inductive PromiseTagType where
  | COMPLETE
  | BLOCKED
  | DECIDE
deriving DecidableEq, Repr

/-- `ParsedPromiseTag` from `src/types/index.ts`. -/
structure ParsedPromiseTag where
  type : Option PromiseTagType
  content : Option (List Char)
  raw : Option (List Char)
deriving DecidableEq, Repr

/-- JavaScript `String.prototype.trim` (strips `\s`-class characters from
both ends; the set used by `trim` coincides with `jsWsChars`). -/
def jsTrim (l : List Char) : List Char :=
  ((l.dropWhile isJsWs).reverse.dropWhile isJsWs).reverse

/-- `parsePromiseTag` from `src/lib/promiseParser.ts`: COMPLETE is checked
first, then BLOCKED, then DECIDE; payload captures are trimmed. -/
def parsePromiseTag (output : List Char) : ParsedPromiseTag :=
  match findComplete output with
  | some raw => ⟨some .COMPLETE, none, some raw⟩
  | none =>
      match findPayload "blocked:".data output with
      | some (raw, content) => ⟨some .BLOCKED, some (jsTrim content), some raw⟩
      | none =>
          match findPayload "decide:".data output with
          | some (raw, content) => ⟨some .DECIDE, some (jsTrim content), some raw⟩
          | none => ⟨none, none, none⟩

/-- `requiresUserIntervention` from `src/lib/promiseParser.ts`. -/
def requiresUserIntervention (tag : ParsedPromiseTag) : Bool :=
  tag.type = some .BLOCKED || tag.type = some .DECIDE

/-- `indicatesCompletion` from `src/lib/promiseParser.ts`. -/
def indicatesCompletion (tag : ParsedPromiseTag) : Bool :=
  tag.type = some .COMPLETE

/-- Matches the lazy `([\s\S]*?)</commit_message>` of the commit-message
pattern: `[\s\S]` matches every character, `*?` tries the empty capture
first. Returns (capture, consumed tail, remainder). -/
def tryLazyAny (brev : List Char) (s : List Char) : Option (List Char × List Char × List Char) :=
  match ciStrip "</commit_message>".data s with
  | some (m, r) => some (brev.reverse, m, r)
  | none =>
      match s with
      | [] => none
      | c :: cs => tryLazyAny (c :: brev) cs

/-- Attempt of `/<commit_message>([\s\S]*?)<\/commit_message>/i` at the
start of `s`; returns (`match[0]`, `match[1]`). -/
def matchCommitAt (s : List Char) : Option (List Char × List Char) :=
  match ciStrip "<commit_message>".data s with
  | none => none
  | some (m1, r1) =>
      match tryLazyAny [] r1 with
      | some (b, tm, _) => some (m1 ++ b ++ tm, b)
      | none => none

/-- Leftmost search for the commit-message pattern. -/
def findCommit : List Char → Option (List Char × List Char)
  | [] => none
  | c :: cs =>
      match matchCommitAt (c :: cs) with
      | some m => some m
      | none => findCommit cs

/-- JavaScript `replace(/\n+/g, ' ')`: every maximal run of `'\n'` becomes
a single space.  The boolean tracks whether we are inside a run. -/
def collapseNlAux : Bool → List Char → List Char
  | _, [] => []
  | inRun, c :: cs =>
      if c = '\n' then
        if inRun then collapseNlAux true cs
        else ' ' :: collapseNlAux true cs
      else c :: collapseNlAux false cs

/-- Every maximal run of newlines replaced by one space. -/
def collapseNl (l : List Char) : List Char := collapseNlAux false l

/-- `parseCommitMessage` from `src/lib/promiseParser.ts`.  Note the
JavaScript guard `if (match && match[1])`: an empty capture is falsy, so
a marker with an empty payload yields `null`. -/
def parseCommitMessage (output : List Char) : Option (List Char) :=
  match findCommit output with
  | some (_, cap) =>
      if cap.isEmpty then none
      else some ((collapseNl (jsTrim cap)).take 200)
  | none => none

/-! ## Process runner (`src/lib/prompt.ts`, Claude CLI wrapper section)

`runClaude` is asynchronous: it spawns a child process and resolves from
either the `close` or the `error` handler.  Each handler is a pure
function of the data available at that point (accumulated stdout/stderr,
exit code, elapsed time), so the two handlers are embedded as functions
and the module-level `activeProcess` slot as an explicit `Option`. -/

/-- The `EMPTY_PROMISE_TAG` constant. -/
def emptyPromiseTag : ParsedPromiseTag := ⟨none, none, none⟩

/-- `ClaudeProcessResult` from `src/types/index.ts`. -/
structure ClaudeProcessResult where
  success : Bool
  output : List Char
  error : Option (List Char)
  duration : Int
  promiseTag : Option ParsedPromiseTag
deriving DecidableEq, Repr

/-- Rendering of the template literal for a missing stderr message.  The
Node `close` event passes `code : number | null` (`null` when the process
was killed by a signal); `code !== 0` is true for `null`. -/
def exitCodeMsg (code : Option Int) : List Char :=
  ("Process exited with code " ++
    (match code with
     | some c => toString c
     | none => "null")).data

/-- The `close`-handler of `runClaude`: parses the accumulated stdout and
reports failure exactly when the exit code is non-zero AND no tag was
recognized; the error message is stderr when non-empty, else a generic
exit-code message. -/
def runClaudeClose (stdout stderr : List Char) (code : Option Int) (duration : Int) :
    ClaudeProcessResult :=
  let promiseTag := parsePromiseTag stdout
  let hasError := code ≠ some 0 ∧ promiseTag.type = none
  { success := !decide hasError
    output := stdout
    error := if hasError then some (if stderr.isEmpty then exitCodeMsg code else stderr) else none
    duration := duration
    promiseTag := some promiseTag }

/-- The `error`-handler of `runClaude` (spawn failure): failure with the
underlying error message and the empty tag. -/
def runClaudeError (stdout errMsg : List Char) (duration : Int) : ClaudeProcessResult :=
  { success := false
    output := stdout
    error := some errMsg
    duration := duration
    promiseTag := some emptyPromiseTag }

/-- A child process handle: all `killActiveProcess` inspects is whether
the process was already killed. -/
structure ChildProc where
  killed : Bool
deriving DecidableEq, Repr

/-- `killActiveProcess` from `src/lib/prompt.ts`: acts on the module-level
`activeProcess` slot; returns the boolean result and the new slot
content. -/
def killActiveProcess : Option ChildProc → Bool × Option ChildProc
  | some p => if !p.killed then (true, none) else (false, some p)
  | none => (false, none)

/-! ## Run history recorder (`src/lib/history.ts`)

Only the pure construction functions are embedded; `saveHistoryEntry`
performs file I/O and is modelled by an environment outcome (success, or
a thrown error message) at its call sites in the loop. -/

/-- `IterationRecord` from `src/types/index.ts`; times come from
`Date.now()` and are supplied by the environment. -/
structure IterationRecord where
  number : Nat
  startTime : Int
  endTime : Int
  duration : Int
  output : List Char
  promiseTag : Option ParsedPromiseTag
deriving DecidableEq, Repr

/-- `LoopStatus` from `src/types/index.ts`. -/
inductive LoopStatus where
  | idle
  | running
  | paused
  | completed
  | blocked
  | decide
  | max_reached
  | cancelled
  | error
deriving DecidableEq, Repr

/-- The subset of `RalphConfig` the control loop reads. -/
structure RalphConfig where
  maxIterations : Nat
  unlimited : Bool
  completionSignal : List Char
  model : List Char
  dangerouslySkipPermissions : Bool
  prompt : List Char
  projectRoot : List Char
  sandbox : Bool
  autoCommit : Bool
deriving DecidableEq, Repr

/-- `HistoryEntry` from `src/types/index.ts` (the `config` field holds the
snapshot `createHistoryEntry` takes: maxIterations, model,
completionSignal). -/
structure HistoryEntry where
  id : List Char
  timestamp : List Char
  projectRoot : List Char
  prompt : List Char
  configMaxIterations : Nat
  configModel : List Char
  configCompletionSignal : List Char
  iterations : List IterationRecord
  result : LoopStatus
  totalDuration : Int
deriving DecidableEq, Repr

/-- `createHistoryEntry`: `id` comes from `nanoid` and `timestamp` from
`Date`, both environment-supplied. -/
def createHistoryEntry (id timestamp : List Char) (config : RalphConfig)
    (prompt : List Char) : HistoryEntry :=
  { id := id
    timestamp := timestamp
    projectRoot := config.projectRoot
    prompt := prompt
    configMaxIterations := config.maxIterations
    configModel := config.model
    configCompletionSignal := config.completionSignal
    iterations := []
    result := .running
    totalDuration := 0 }

/-- `addIterationToHistory`: appends the record with the next sequential
number (whatever `number` the argument carried is overwritten). -/
def addIterationToHistory (entry : HistoryEntry) (iter : IterationRecord) : HistoryEntry :=
  { entry with
      iterations := entry.iterations ++ [{ iter with number := entry.iterations.length + 1 }] }

/-- `finalizeHistoryEntry`. -/
def finalizeHistoryEntry (entry : HistoryEntry) (result : LoopStatus)
    (totalDuration : Int) : HistoryEntry :=
  { entry with result := result, totalDuration := totalDuration }

/-- `createIterationRecord` (`number` is assigned later by
`addIterationToHistory`). -/
def createIterationRecord (startTime endTime : Int) (output : List Char)
    (promiseTag : Option ParsedPromiseTag) : IterationRecord :=
  { number := 0
    startTime := startTime
    endTime := endTime
    duration := endTime - startTime
    output := output
    promiseTag := promiseTag }

/-! ## Iteration control loop (`src/hooks/useClaudeLoop.ts`)

The hook's mutable pieces — the React `LoopState`, the refs
(`isRunningRef`, `isPausedRef`, `historyRef`), the module-level
`activeProcess` slot and the local `iteration` counter of `executeLoop` —
are collected into one explicit state record.  Externally observable
callbacks and notifications are recorded in an event trace in the order
the code awaits or invokes them.  The asynchronous environment (what each
`runClaude` invocation returns or throws, whether `saveHistoryEntry`
succeeds or throws, which command eventually ends a pause wait, and the
wall-clock values) is an explicit record of oracles.  A `thrown` field
records an exception propagating out of `executeLoop` (i.e. a rejection
of the promise returned by the public `start`). -/

/-- External effects of the loop, in program order: observer callbacks
(`onStatusChange`, `onIterationStart`, `onIterationEnd`, `onComplete`),
the history write, the notification sink, and error logging. -/
inductive LoopEvent where
  | statusChange (s : LoopStatus)
  | iterStart (n : Nat)
  | iterEnd (n : Nat)
  | persisted
  | runComplete
  | notifyComplete (n : Nat)
  | notifyBlocked (msg : List Char)
  | notifyDecision (msg : List Char)
  | notifyMaxIterations (n : Nat)
  | errorLogged (msg : List Char)
deriving DecidableEq, Repr

/-- `LoopState` from `src/types/index.ts` (the React state of the hook). -/
structure LoopSnapshot where
  status : LoopStatus
  currentIteration : Nat
  output : List (List Char)
  lastPromiseTag : Option ParsedPromiseTag
  error : Option (List Char)
deriving DecidableEq, Repr

/-- The full mutable state of one `useClaudeLoop` instance. -/
structure LoopModelState where
  snap : LoopSnapshot
  isRunning : Bool
  isPaused : Bool
  history : Option HistoryEntry
  activeProcess : Option ChildProc
  iteration : Nat
  trace : List LoopEvent
  thrown : Option (List Char)
deriving DecidableEq, Repr

/-- What one `runClaude` invocation did: resolved with a result after
streaming some chunks, or made the iteration throw (an unexpected
exception somewhere in `runIteration`). -/
inductive IterOutcome where
  | ok (res : ClaudeProcessResult) (chunks : List (List Char))
  | exn (msg : List Char)
deriving DecidableEq, Repr

/-- The asynchronous environment of one run.  `runner n` is what the
n-th invocation does; `save` is `none` when `saveHistoryEntry` succeeds
and `some e` when it throws `e` (constant across calls of one run);
`resume n` tells whether the pause wait during iteration `n` eventually
ends with `resume()` (`true`) or `stop()` (`false`), modelling the
cooperative 100 ms poll by its eventual outcome; the remaining fields
supply `nanoid` and `Date.now()` values. -/
structure LoopEnv where
  runner : Nat → IterOutcome
  save : Option (List Char)
  resume : Nat → Bool
  newId : List Char
  newTimestamp : List Char
  iterStartTime : Nat → Int
  iterEndTime : Nat → Int
  elapsed : Int

/-- `updateStatus`: sets the state's status and fires `onStatusChange`. -/
def updateStatus (st : LoopModelState) (s : LoopStatus) : LoopModelState :=
  { st with
      snap := { st.snap with status := s }
      trace := st.trace ++ [LoopEvent.statusChange s] }

/-- The initial hook state (`useState` initializer). -/
def initState : LoopModelState :=
  { snap := { status := .idle, currentIteration := 0, output := [],
              lastPromiseTag := none, error := none }
    isRunning := false
    isPaused := false
    history := none
    activeProcess := none
    iteration := 0
    trace := []
    thrown := none }

/-- Public `pause()`: sets the pause flag and (unconditionally) the
status. -/
def pauseOp (st : LoopModelState) : LoopModelState :=
  updateStatus { st with isPaused := true } .paused

/-- Public `resume()`: clears the pause flag; transitions to `running`
only when the running flag is set. -/
def resumeOp (st : LoopModelState) : LoopModelState :=
  let st := { st with isPaused := false }
  if st.isRunning then updateStatus st .running else st

/-- Public `stop()`: clears both flags, kills any in-flight invocation,
transitions to `cancelled`. -/
def stopOp (st : LoopModelState) : LoopModelState :=
  updateStatus
    { st with
        isRunning := false
        isPaused := false
        activeProcess := (killActiveProcess st.activeProcess).2 } .cancelled

/-- Public `reset()`: same teardown as `stop` plus dropping the history
handle and restoring the initial snapshot (via a plain `setState`, so no
`onStatusChange` event). -/
def resetOp (st : LoopModelState) : LoopModelState :=
  { st with
      isRunning := false
      isPaused := false
      activeProcess := (killActiveProcess st.activeProcess).2
      history := none
      snap := { status := .idle, currentIteration := 0, output := [],
                lastPromiseTag := none, error := none } }

/-- `shouldContinue` from `executeLoop` (line 166). -/
def shouldContinue (cfg : RalphConfig) (st : LoopModelState) : Bool :=
  st.isRunning && (cfg.unlimited || st.iteration < cfg.maxIterations)

/-- `finalizeAndSave`: finalizes the history entry, then attempts the
write (`saveHistoryEntry`), then fires `onComplete`.  Returns the state
and `some e` when the write threw `e` — the entry is already finalized
at that point, and neither the write event nor `onComplete` happen. -/
def finalizeAndSave (env : LoopEnv) (st : LoopModelState) (result : LoopStatus) :
    LoopModelState × Option (List Char) :=
  match st.history with
  | none => (st, none)
  | some h =>
      let h := finalizeHistoryEntry h result env.elapsed
      let st := { st with history := some h }
      match env.save with
      | none => ({ st with trace := st.trace ++ [LoopEvent.persisted, LoopEvent.runComplete] }, none)
      | some e => (st, some e)

/-- The effects of `runIteration` for a resolved invocation `res` after
streaming `chunks` (lines 76–139): `onIterationStart`, streamed chunks
appended to the display output, the buffered-output fallback,
`onIterationEnd`, and the history append.  Auto-commit (lines 119–136)
only invokes git helpers and the logger and changes no loop state, so it
contributes nothing here. -/
def runIterationModel (env : LoopEnv) (st : LoopModelState) (n : Nat)
    (res : ClaudeProcessResult) (chunks : List (List Char)) : LoopModelState :=
  let st := { st with trace := st.trace ++ [LoopEvent.iterStart n] }
  let streamed := st.snap.output ++ chunks
  let displayed :=
    if !res.output.isEmpty && streamed.isEmpty then [res.output] else streamed
  let st := { st with snap := { st.snap with output := displayed } }
  let st := { st with trace := st.trace ++ [LoopEvent.iterEnd n] }
  match st.history with
  | some h =>
      { st with
          history := some (addIterationToHistory h
            (createIterationRecord (env.iterStartTime n) (env.iterEndTime n)
              res.output res.promiseTag)) }
  | none => st

/-- The body of one `while` pass after the iteration counter was bumped
(the `try`/`catch` of lines 181–214).  The boolean is `true` when the
pass exited the loop via `return` (the completion path). -/
def iterStep (env : LoopEnv) (st : LoopModelState) : LoopModelState × Bool :=
  let n := st.iteration
  match env.runner n with
  | .exn msg =>
      ({ st with
          trace := st.trace ++ [LoopEvent.errorLogged msg]
          snap := { st.snap with error := some msg } }, false)
  | .ok res chunks =>
      let st := runIterationModel env st n res chunks
      let st := { st with snap := { st.snap with lastPromiseTag := res.promiseTag } }
      if res.promiseTag.any indicatesCompletion then
        let st := updateStatus st .completed
        match finalizeAndSave env st .completed with
        | (st, none) =>
            ({ st with
                trace := st.trace ++ [LoopEvent.notifyComplete n]
                isRunning := false }, true)
        | (st, some e) =>
            ({ st with
                trace := st.trace ++ [LoopEvent.errorLogged e]
                snap := { st.snap with error := some e } }, false)
      else if res.promiseTag.any requiresUserIntervention then
        let tag := res.promiseTag.getD emptyPromiseTag
        let msg := tag.content.getD []
        let isBlocked := tag.type = some .BLOCKED
        let st := updateStatus st (if isBlocked then .blocked else .decide)
        let st := { st with
          trace := st.trace ++ [if isBlocked then LoopEvent.notifyBlocked msg else LoopEvent.notifyDecision msg] }
        ({ st with isPaused := true }, false)
      else if !res.success then
        ({ st with trace := st.trace ++ [LoopEvent.errorLogged (res.error.getD [])] }, false)
      else (st, false)

/-- The cooperative pause wait at the top of the `while` body (lines
170–172): the loop sleeps in 100 ms steps until an external `resume()` or
`stop()` changes the flags; the oracle supplies which of the two
eventually happens. -/
def pauseWait (env : LoopEnv) (st : LoopModelState) : LoopModelState :=
  if st.isPaused && st.isRunning then
    if env.resume st.iteration then resumeOp st else stopOp st
  else st

/-- The code after the `while` loop (lines 217–228).  When
`finalizeAndSave` throws there, nothing catches it: the remaining
statements are skipped and `executeLoop`'s promise rejects (`thrown`).
The `state.status` read on line 223 is a possibly stale React snapshot;
on every reachable path it agrees with the current status (the
completion path returns from inside the loop), so the model reads the
current one. -/
def postLoop (cfg : RalphConfig) (env : LoopEnv) (st : LoopModelState) : LoopModelState :=
  if !cfg.unlimited && cfg.maxIterations ≤ st.iteration then
    let st := updateStatus st .max_reached
    match finalizeAndSave env st .max_reached with
    | (st, none) =>
        { st with
            trace := st.trace ++ [LoopEvent.notifyMaxIterations cfg.maxIterations]
            isRunning := false }
    | (st, some e) => { st with thrown := some e }
  else if !st.isRunning && st.snap.status ≠ .completed then
    let st := updateStatus st .cancelled
    match finalizeAndSave env st .cancelled with
    | (st, none) => { st with isRunning := false }
    | (st, some e) => { st with thrown := some e }
  else { st with isRunning := false }

/-- The `while` loop of `executeLoop` (lines 169–215), fuel-indexed: each
unit of fuel allows one pass.  With fuel `0` the remaining run is left
unevaluated and the current state returned (all theorems supply enough
fuel for the run they describe). -/
def loopGo (cfg : RalphConfig) (env : LoopEnv) : Nat → LoopModelState → LoopModelState
  | 0, st => st
  | fuel + 1, st =>
      if shouldContinue cfg st then
        let st := pauseWait env st
        if !st.isRunning then postLoop cfg env st
        else
          let st := { st with iteration := st.iteration + 1 }
          let st := { st with snap := { st.snap with currentIteration := st.iteration } }
          match iterStep env st with
          | (st, true) => st
          | (st, false) => loopGo cfg env fuel st
      else postLoop cfg env st

/-- `executeLoop` (lines 156–231): sets the running flag, creates the
history entry, and runs the loop from iteration 0. -/
def executeLoop (cfg : RalphConfig) (env : LoopEnv) (fuel : Nat)
    (st : LoopModelState) (prompt : List Char) : LoopModelState :=
  loopGo cfg env fuel
    { st with
        isRunning := true
        history := some (createHistoryEntry env.newId env.newTimestamp cfg prompt)
        iteration := 0 }

/-- Public `start()` (lines 233–255): with no prompt available it records
the error and returns; otherwise it resets the snapshot to a fresh
running state, fires `onStatusChange running`, and runs `executeLoop`. -/
def startOp (cfg : RalphConfig) (env : LoopEnv) (fuel : Nat)
    (st : LoopModelState) (promptArg : Option (List Char)) : LoopModelState :=
  let effectivePrompt := promptArg.getD cfg.prompt
  if effectivePrompt.isEmpty then
    { st with
        trace := st.trace ++ [LoopEvent.errorLogged "No prompt provided".data]
        snap := { st.snap with error := some "No prompt provided".data } }
  else
    let st := { st with
      snap := { status := .running, currentIteration := 0, output := [],
                lastPromiseTag := none, error := none } }
    let st := updateStatus st .running
    executeLoop cfg env fuel st effectivePrompt

/-- The two state updates at lines 176–177: bump the iteration counter
and mirror it into the React state. -/
def bumpIteration (st : LoopModelState) : LoopModelState :=
  { st with
      iteration := st.iteration + 1
      snap := { st.snap with currentIteration := st.iteration + 1 } }

/-- A resolved invocation whose parsed tag does not indicate completion
(it may be a failure, a plain success, or a blocked/decide signal). -/
def benignOutcome : IterOutcome → Bool
  | .ok res _ => !(res.promiseTag.any indicatesCompletion)
  | .exn _ => false

/-- An outcome that signals neither completion nor intervention: a
resolved invocation without a COMPLETE/BLOCKED/DECIDE tag (success or
failure), or an iteration that threw. -/
def neverStopsOutcome : IterOutcome → Bool
  | .ok res _ =>
      !(res.promiseTag.any indicatesCompletion) &&
      !(res.promiseTag.any requiresUserIntervention)
  | .exn _ => true

/-- A resolved invocation whose parsed tag indicates completion. -/
def completesOutcome : IterOutcome → Bool
  | .ok res _ => res.promiseTag.any indicatesCompletion
  | .exn _ => false

/-- A successful invocation result without any tag (mock runner output
for an ordinary working iteration). -/
def benignResult : ClaudeProcessResult :=
  { success := true
    output := "working...".data
    error := none
    duration := 5
    promiseTag := some (parsePromiseTag "working...".data) }

/-- A failed invocation result without any tag. -/
def failedResult : ClaudeProcessResult :=
  { success := false
    output := []
    error := some "boom".data
    duration := 5
    promiseTag := some (parsePromiseTag []) }

/-- A successful invocation result carrying a complete marker (the tag is
the parse of the output, as `runClaude` and the mock runner compute). -/
def completeResult : ClaudeProcessResult :=
  { success := true
    output := "<promise>COMPLETE</promise>".data
    error := none
    duration := 5
    promiseTag := some (parsePromiseTag "<promise>COMPLETE</promise>".data) }

/-- A small run configuration used to instantiate the loop theorems. -/
def wCfg : RalphConfig :=
  { maxIterations := 5
    unlimited := false
    completionSignal := "<promise>COMPLETE</promise>".data
    model := "opus".data
    dangerouslySkipPermissions := false
    prompt := "do the task".data
    projectRoot := "/tmp/proj".data
    sandbox := false
    autoCommit := false }

/-- A mock environment whose runner completes at iteration `k` and works
benignly before; persistence succeeds and any pause is resumed. -/
def wEnvComplete (k : Nat) : LoopEnv :=
  { runner := fun n => if n = k then .ok completeResult [] else .ok benignResult []
    save := none
    resume := fun _ => true
    newId := "abcde".data
    newTimestamp := "2026-01-01".data
    iterStartTime := fun _ => 0
    iterEndTime := fun _ => 1
    elapsed := 42 }

/-- A mock environment whose runner never emits any tag and whose
history write always throws. -/
def wEnvSaveFail : LoopEnv :=
  { runner := fun _ => .ok benignResult []
    save := some "ENOSPC: no space left on device".data
    resume := fun _ => true
    newId := "abcde".data
    newTimestamp := "2026-01-01".data
    iterStartTime := fun _ => 0
    iterEndTime := fun _ => 1
    elapsed := 42 }

/-- A bounded configuration with a cap of one iteration. -/
def wCfgOne : RalphConfig := { wCfg with maxIterations := 1 }

/-! ## Lemmas about the pattern matchers -/

lemma toLower_eq_self_of_isJsWs {c : Char} (h : isJsWs c = true) : c.toLower = c := by
  have hm : c ∈ jsWsChars := by simpa [isJsWs] using h
  fin_cases hm <;> decide

lemma ciStrip_exact : ∀ (pat s r : List Char),
    s.map Char.toLower = pat → ciStrip pat (s ++ r) = some (s, r) := by
  intro pat s
  induction s generalizing pat with
  | nil => intro r h; subst h; rfl
  | cons c cs ih =>
      intro r h
      subst h
      simp [ciStrip, ih _ r rfl]

lemma skipWsSplit_exact : ∀ (w r : List Char),
    (∀ c ∈ w, isJsWs c = true) →
    (∀ c, r.head? = some c → isJsWs c = false) →
    skipWsSplit (w ++ r) = (w, r) := by
  intro w
  induction w with
  | nil =>
      intro r _ hr
      cases r with
      | nil => rfl
      | cons c cs => simp [skipWsSplit, hr c rfl]
  | cons c cs ih =>
      intro r hw hr
      have hc : isJsWs c = true := hw c (by simp)
      simp [skipWsSplit, hc, ih r (fun x hx => hw x (by simp [hx])) hr]

lemma matchCompleteAt_parts (w1 kw w2 post : List Char)
    (hw1 : ∀ c ∈ w1, isJsWs c = true) (hw2 : ∀ c ∈ w2, isJsWs c = true)
    (hkw : kw.map Char.toLower = "complete".data) :
    (matchCompleteAt
      ("<promise>".data ++ (w1 ++ (kw ++ (w2 ++ ("</promise>".data ++ post)))))).isSome = true := by
  obtain ⟨c0, kt, rfl⟩ : ∃ c0 kt, kw = c0 :: kt := by
    cases kw with
    | nil => exact absurd hkw (by decide)
    | cons a b => exact ⟨a, b, rfl⟩
  have hc0 : c0.toLower = 'c' := by
    have := congrArg List.head? hkw
    simpa using this
  have hc0ws : isJsWs c0 = false := by
    by_contra hne
    have htrue : isJsWs c0 = true := by
      cases h : isJsWs c0 with
      | true => rfl
      | false => exact absurd h hne
    have hself := toLower_eq_self_of_isJsWs htrue
    have : c0 = 'c' := hself.symm.trans hc0
    subst this
    exact absurd htrue (by decide)
  have e1 := ciStrip_exact "<promise>".data "<promise>".data
    (w1 ++ ((c0 :: kt) ++ (w2 ++ ("</promise>".data ++ post)))) (by decide)
  have e2 : skipWsSplit (w1 ++ ((c0 :: kt) ++ (w2 ++ ("</promise>".data ++ post))))
      = (w1, (c0 :: kt) ++ (w2 ++ ("</promise>".data ++ post))) := by
    refine skipWsSplit_exact w1 _ hw1 ?_
    intro c hc
    have h2 : c = c0 := by
      have hh : ((c0 :: kt) ++ (w2 ++ ("</promise>".data ++ post))).head? = some c0 := rfl
      rw [hh] at hc
      exact (Option.some.inj hc).symm
    subst h2
    exact hc0ws
  have e3 := ciStrip_exact "complete".data (c0 :: kt) (w2 ++ ("</promise>".data ++ post)) hkw
  have e4 : skipWsSplit (w2 ++ ("</promise>".data ++ post))
      = (w2, "</promise>".data ++ post) := by
    refine skipWsSplit_exact w2 _ hw2 ?_
    intro c hc
    have h2 : c = '<' := by
      have hh : ("</promise>".data ++ post).head? = some '<' := rfl
      rw [hh] at hc
      exact (Option.some.inj hc).symm
    subst h2
    decide
  have e5 := ciStrip_exact "</promise>".data "</promise>".data post (by decide)
  simp only [matchCompleteAt, e1, e2, e3, e4, e5]
  rfl

lemma findComplete_isSome_append : ∀ (pre rest : List Char),
    (matchCompleteAt rest).isSome = true →
    (findComplete (pre ++ rest)).isSome = true := by
  intro pre
  induction pre with
  | nil =>
      intro rest h
      cases rest with
      | nil => simp [show matchCompleteAt [] = none from rfl] at h
      | cons c cs =>
          simp only [List.nil_append, findComplete]
          cases hm : matchCompleteAt (c :: cs) with
          | some raw => simp
          | none => rw [hm] at h; simp at h
  | cons c pre ih =>
      intro rest h
      simp only [List.cons_append, findComplete]
      cases hm : matchCompleteAt (c :: (pre ++ rest)) with
      | some raw => simp
      | none => exact ih rest h

/-- Claim C1: for every output text, if a well-formed complete marker
(`<promise>` then optional whitespace, the keyword `COMPLETE` in any
casing, optional whitespace, `</promise>`) is present anywhere in the
text, `parsePromiseTag` returns a signal of kind COMPLETE — in
particular even when blocked or decide markers are also present and
occur earlier in the text (the arbitrary enclosing texts may contain
any other markers). -/
theorem complete_marker_always_wins (pre w1 kw w2 post : List Char)
    (hw1 : ∀ c ∈ w1, isJsWs c = true) (hw2 : ∀ c ∈ w2, isJsWs c = true)
    (hkw : kw.map Char.toLower = "complete".data) :
    (parsePromiseTag
      (pre ++ "<promise>".data ++ w1 ++ kw ++ w2 ++ "</promise>".data ++ post)).type
      = some PromiseTagType.COMPLETE := by
  have hm := matchCompleteAt_parts w1 kw w2 post hw1 hw2 hkw
  have hf := findComplete_isSome_append pre _ hm
  have heq : pre ++ "<promise>".data ++ w1 ++ kw ++ w2 ++ "</promise>".data ++ post
      = pre ++ ("<promise>".data ++ (w1 ++ (kw ++ (w2 ++ ("</promise>".data ++ post))))) := by
    simp [List.append_assoc]
  rw [heq]
  unfold parsePromiseTag
  cases ho : findComplete
      (pre ++ ("<promise>".data ++ (w1 ++ (kw ++ (w2 ++ ("</promise>".data ++ post)))))) with
  | some raw => simp
  | none => rw [ho] at hf; simp at hf

/-- Witness for C1: a text with an earlier blocked marker and a
mixed-case, whitespace-padded complete marker parses as COMPLETE. -/
theorem complete_marker_always_wins_witness :
    (∀ c ∈ [' '], isJsWs c = true) ∧
    ("Complete".data.map Char.toLower = "complete".data) ∧
    (parsePromiseTag
      ("a<promise>BLOCKED: stuck</promise> ".data ++ "<promise>".data ++ [' '] ++
        "Complete".data ++ [] ++ "</promise>".data ++ "z".data)).type
      = some PromiseTagType.COMPLETE :=
  ⟨by decide, by decide,
    complete_marker_always_wins "a<promise>BLOCKED: stuck</promise> ".data [' ']
      "Complete".data [] "z".data (by decide) (by decide) (by decide)⟩

/-- Claim C6: on a normal exit, `runClaude` reports failure exactly when
the exit code is non-zero AND no recognized signal was parsed from the
accumulated stdout; in particular, a non-zero exit whose output carries
a recognized marker is reported as success, and the reported tag is the
parse of the accumulated stdout.  On spawn failure it reports failure
with the underlying error message and the empty (kind-None) signal. -/
theorem runner_success_reporting :
    (∀ out err code d, (runClaudeClose out err code d).success = false ↔
        (code ≠ some 0 ∧ (parsePromiseTag out).type = none)) ∧
    (∀ out err code d, (runClaudeClose out err code d).promiseTag = some (parsePromiseTag out)) ∧
    (∀ out err code d, code ≠ some 0 → (parsePromiseTag out).type ≠ none →
        (runClaudeClose out err code d).success = true) ∧
    (∀ out msg d, (runClaudeError out msg d).success = false ∧
        (runClaudeError out msg d).error = some msg ∧
        (runClaudeError out msg d).promiseTag = some emptyPromiseTag) := by
  refine ⟨?_, ?_, ?_, ?_⟩
  · intro out err code d
    simp [runClaudeClose]
  · intro out err code d
    simp [runClaudeClose]
  · intro out err code d hcode htag
    simp [runClaudeClose]
    exact Or.inr htag
  · intro out msg d
    exact ⟨rfl, rfl, rfl⟩

/-- Witness for C6: exit code 1 with a complete marker in stdout is
reported as success. -/
theorem runner_success_reporting_witness :
    (some (1 : Int) ≠ some 0) ∧
    ((parsePromiseTag "done <promise>COMPLETE</promise>".data).type ≠ none) ∧
    (runClaudeClose "done <promise>COMPLETE</promise>".data "oops".data (some 1) 7).success
      = true :=
  ⟨by decide, by decide,
    runner_success_reporting.2.2.1 "done <promise>COMPLETE</promise>".data "oops".data
      (some 1) 7 (by decide) (by decide)⟩

/-- Claim C8: `killActiveProcess` is total and idempotent — with no
active invocation (empty slot or already-killed process) it returns
`false` and leaves the slot unchanged, and a second call after any call
returns `false` and changes nothing. -/
theorem kill_active_process_idempotent (slot : Option ChildProc) :
    (slot = none → killActiveProcess slot = (false, none)) ∧
    (∀ p, slot = some p → p.killed = true → killActiveProcess slot = (false, slot)) ∧
    killActiveProcess (killActiveProcess slot).2 = (false, (killActiveProcess slot).2) := by
  refine ⟨?_, ?_, ?_⟩
  · intro h; subst h; rfl
  · intro p h hk
    subst h
    simp [killActiveProcess, hk]
  · cases slot with
    | none => rfl
    | some p =>
        cases hk : p.killed with
        | true => simp [killActiveProcess, hk]
        | false => simp [killActiveProcess, hk]

/-- Witness for C8: calling with an empty slot returns `false` and
leaves it empty. -/
theorem kill_active_process_idempotent_witness :
    killActiveProcess (none : Option ChildProc) = (false, none) :=
  (kill_active_process_idempotent none).1 rfl

/-- Counterexample for C7: the claim says `pause()` changes the status
only when it is currently `running` and otherwise leaves it unchanged;
but pausing the freshly initialized (idle) loop sets the status to
`paused` (lines 257–260 update the status unconditionally). -/
theorem pause_unconditional_counterexample :
    initState.snap.status ≠ LoopStatus.running ∧
    (pauseOp initState).snap.status ≠ initState.snap.status := by
  decide

/-- Claim C7 (amended): `pause()` sets the pause flag and transitions the
status to `paused` unconditionally, whatever the current status;
`resume()` clears the pause flag and transitions back to `running` only
if the run is still active (running flag set), leaving the status
unchanged otherwise. -/
theorem pause_resume_semantics (st : LoopModelState) :
    ((pauseOp st).isPaused = true ∧ (pauseOp st).snap.status = LoopStatus.paused) ∧
    ((resumeOp st).isPaused = false ∧
      (st.isRunning = true → (resumeOp st).snap.status = LoopStatus.running) ∧
      (st.isRunning = false → (resumeOp st).snap.status = st.snap.status)) := by
  refine ⟨⟨rfl, rfl⟩, ?_, ?_, ?_⟩
  · cases h : st.isRunning with
    | true => simp [resumeOp, h, updateStatus]
    | false => simp [resumeOp, h]
  · intro h; simp [resumeOp, h, updateStatus]
  · intro h; simp [resumeOp, h]

/-- Witness for C7 (amended): resuming the idle (not running) initial
state clears the flag and leaves the status untouched. -/
theorem pause_resume_semantics_witness :
    initState.isRunning = false ∧ (resumeOp initState).snap.status = initState.snap.status :=
  ⟨rfl, (pause_resume_semantics initState).2.2.2 rfl⟩

/-! ## Lemmas about `parseCommitMessage` -/

lemma collapseNlAux_not_mem_nl : ∀ (b : Bool) (l : List Char), '\n' ∉ collapseNlAux b l := by
  intro b l
  induction l generalizing b with
  | nil => simp [collapseNlAux]
  | cons c cs ih =>
      by_cases hc : c = '\n'
      · subst hc
        cases b with
        | true => simpa [collapseNlAux] using ih true
        | false =>
            simp only [collapseNlAux, if_pos rfl]
            intro hmem
            rcases List.mem_cons.mp hmem with h | h
            · exact absurd h.symm (by decide)
            · exact ih true h
      · simp only [collapseNlAux, if_neg hc]
        intro hmem
        rcases List.mem_cons.mp hmem with h | h
        · exact hc h.symm
        · exact ih false h

/-- Counterexample for C10: the commit-message marker is present in the
text (with an empty payload), yet `parseCommitMessage` returns `null`
rather than the trimmed payload, because the JavaScript guard
`if (match && match[1])` treats the empty capture as falsy. -/
theorem commit_message_empty_counterexample :
    findCommit "<commit_message></commit_message>".data
        = some ("<commit_message></commit_message>".data, []) ∧
    parseCommitMessage "<commit_message></commit_message>".data = none ∧
    parseCommitMessage "<commit_message></commit_message>".data
        ≠ some ((collapseNl (jsTrim [])).take 200) := by
  refine ⟨by decide, by decide, by decide⟩

/-- Claim C10 (amended): `parseCommitMessage` returns `null` when no
commit-message marker is present, and also when the marker's payload is
empty; for a marker with a non-empty payload it returns the payload trimmed,
with newline runs collapsed to single spaces, truncated to 200
characters — so a returned message never contains a newline and never
exceeds 200 characters. -/
theorem commit_message_shape (out : List Char) :
    (findCommit out = none → parseCommitMessage out = none) ∧
    (∀ raw cap, findCommit out = some (raw, cap) → cap ≠ [] →
        parseCommitMessage out = some ((collapseNl (jsTrim cap)).take 200)) ∧
    (∀ msg, parseCommitMessage out = some msg →
        msg.length ≤ 200 ∧ '\n' ∉ msg) := by
  refine ⟨?_, ?_, ?_⟩
  · intro h
    simp [parseCommitMessage, h]
  · intro raw cap h hne
    simp [parseCommitMessage, h, hne]
  · intro msg hm
    unfold parseCommitMessage at hm
    cases hfc : findCommit out with
    | none => rw [hfc] at hm; exact absurd hm (by simp)
    | some p =>
        obtain ⟨raw, cap⟩ := p
        rw [hfc] at hm
        by_cases he : cap.isEmpty
        · simp [he] at hm
        · simp only [he, if_neg, Bool.false_eq_true, not_false_eq_true, if_false] at hm
          have hmsg : msg = (collapseNl (jsTrim cap)).take 200 := by
            exact (Option.some.inj hm).symm
          subst hmsg
          constructor
          · exact (List.length_take_le 200 _)
          · intro hmem
            exact collapseNlAux_not_mem_nl false _ (List.take_subset _ _ hmem)

/-! ## Lemmas about the control loop -/

@[simp] lemma bumpIteration_iteration (st : LoopModelState) :
    (bumpIteration st).iteration = st.iteration + 1 := rfl

@[simp] lemma bumpIteration_isRunning (st : LoopModelState) :
    (bumpIteration st).isRunning = st.isRunning := rfl

@[simp] lemma bumpIteration_isPaused (st : LoopModelState) :
    (bumpIteration st).isPaused = st.isPaused := rfl

@[simp] lemma bumpIteration_thrown (st : LoopModelState) :
    (bumpIteration st).thrown = st.thrown := rfl

@[simp] lemma bumpIteration_history (st : LoopModelState) :
    (bumpIteration st).history = st.history := rfl

@[simp] lemma bumpIteration_trace (st : LoopModelState) :
    (bumpIteration st).trace = st.trace := rfl

@[simp] lemma bumpIteration_snap_currentIteration (st : LoopModelState) :
    (bumpIteration st).snap.currentIteration = st.iteration + 1 := rfl

@[simp] lemma bumpIteration_snap_status (st : LoopModelState) :
    (bumpIteration st).snap.status = st.snap.status := rfl

@[simp] lemma bumpIteration_snap_error (st : LoopModelState) :
    (bumpIteration st).snap.error = st.snap.error := rfl

lemma loopGo_zero (cfg : RalphConfig) (env : LoopEnv) (st : LoopModelState) :
    loopGo cfg env 0 st = st := rfl

lemma loopGo_exit (cfg : RalphConfig) (env : LoopEnv) (fuel : Nat) (st : LoopModelState)
    (h : shouldContinue cfg st = false) :
    loopGo cfg env (fuel + 1) st = postLoop cfg env st := by
  simp [loopGo, h]

lemma loopGo_succ (cfg : RalphConfig) (env : LoopEnv) (fuel : Nat) (st : LoopModelState)
    (hsc : shouldContinue cfg st = true)
    (hrun : (pauseWait env st).isRunning = true) :
    loopGo cfg env (fuel + 1) st =
      (match iterStep env (bumpIteration (pauseWait env st)) with
        | (st4, true) => st4
        | (st4, false) => loopGo cfg env fuel st4) := by
  simp [loopGo, hsc, hrun, bumpIteration]

lemma addIterationToHistory_length (h : HistoryEntry) (rec : IterationRecord) :
    (addIterationToHistory h rec).iterations.length = h.iterations.length + 1 := by
  simp [addIterationToHistory]

lemma iterStep_exn (env : LoopEnv) (st : LoopModelState) (msg : List Char)
    (hr : env.runner st.iteration = IterOutcome.exn msg) :
    iterStep env st =
      ({ st with
          trace := st.trace ++ [LoopEvent.errorLogged msg]
          snap := { st.snap with error := some msg } }, false) := by
  simp [iterStep, hr]

lemma iterStep_ok_noncomplete (env : LoopEnv) (st : LoopModelState)
    (res : ClaudeProcessResult) (chunks : List (List Char))
    (hr : env.runner st.iteration = IterOutcome.ok res chunks)
    (hc : res.promiseTag.any indicatesCompletion = false) :
    (iterStep env st).2 = false ∧
    (iterStep env st).1.isRunning = st.isRunning ∧
    (iterStep env st).1.iteration = st.iteration ∧
    (iterStep env st).1.snap.currentIteration = st.snap.currentIteration ∧
    (iterStep env st).1.thrown = st.thrown ∧
    (res.promiseTag.any requiresUserIntervention = false →
        (iterStep env st).1.isPaused = st.isPaused) ∧
    (res.success = false → res.promiseTag.any requiresUserIntervention = false →
        LoopEvent.errorLogged (res.error.getD []) ∈ (iterStep env st).1.trace) ∧
    (∀ h, st.history = some h →
        (iterStep env st).1.history = some (addIterationToHistory h
          (createIterationRecord (env.iterStartTime st.iteration)
            (env.iterEndTime st.iteration) res.output res.promiseTag))) := by
  by_cases hint : res.promiseTag.any requiresUserIntervention = true
  · cases hh : st.history with
    | none => simp [iterStep, hr, hc, hint, runIterationModel, updateStatus, hh]
    | some h => simp [iterStep, hr, hc, hint, runIterationModel, updateStatus, hh]
  · replace hint : res.promiseTag.any requiresUserIntervention = false := by
      cases h2 : res.promiseTag.any requiresUserIntervention with
      | true => exact absurd h2 hint
      | false => rfl
    by_cases hs : res.success = true
    · cases hh : st.history with
      | none => simp [iterStep, hr, hc, hint, hs, runIterationModel, updateStatus, hh]
      | some h => simp [iterStep, hr, hc, hint, hs, runIterationModel, updateStatus, hh]
    · replace hs : res.success = false := by
        cases h2 : res.success with
        | true => exact absurd h2 hs
        | false => rfl
      cases hh : st.history with
      | none => simp [iterStep, hr, hc, hint, hs, runIterationModel, updateStatus, hh]
      | some h => simp [iterStep, hr, hc, hint, hs, runIterationModel, updateStatus, hh]

lemma iterStep_complete_saveok (env : LoopEnv) (st : LoopModelState)
    (res : ClaudeProcessResult) (chunks : List (List Char)) (h : HistoryEntry)
    (hr : env.runner st.iteration = IterOutcome.ok res chunks)
    (hc : res.promiseTag.any indicatesCompletion = true)
    (hh : st.history = some h)
    (hsave : env.save = none) :
    (iterStep env st).2 = true ∧
    (iterStep env st).1.snap.status = LoopStatus.completed ∧
    (iterStep env st).1.isRunning = false ∧
    (iterStep env st).1.thrown = st.thrown ∧
    (iterStep env st).1.iteration = st.iteration ∧
    (iterStep env st).1.snap.currentIteration = st.snap.currentIteration ∧
    (iterStep env st).1.history = some (finalizeHistoryEntry
      (addIterationToHistory h (createIterationRecord (env.iterStartTime st.iteration)
        (env.iterEndTime st.iteration) res.output res.promiseTag))
      LoopStatus.completed env.elapsed) ∧
    (iterStep env st).1.trace = st.trace ++
      [LoopEvent.iterStart st.iteration, LoopEvent.iterEnd st.iteration,
       LoopEvent.statusChange LoopStatus.completed, LoopEvent.persisted,
       LoopEvent.runComplete, LoopEvent.notifyComplete st.iteration] := by
  simp [iterStep, hr, hc, runIterationModel, updateStatus, finalizeAndSave, hh, hsave]

lemma iterStep_complete_savefail (env : LoopEnv) (st : LoopModelState)
    (res : ClaudeProcessResult) (chunks : List (List Char)) (h : HistoryEntry) (e : List Char)
    (hr : env.runner st.iteration = IterOutcome.ok res chunks)
    (hc : res.promiseTag.any indicatesCompletion = true)
    (hh : st.history = some h)
    (hsave : env.save = some e) :
    (iterStep env st).2 = false ∧
    (iterStep env st).1.snap.status = LoopStatus.completed ∧
    (iterStep env st).1.snap.error = some e ∧
    (iterStep env st).1.isRunning = st.isRunning ∧
    (iterStep env st).1.thrown = st.thrown ∧
    (iterStep env st).1.iteration = st.iteration ∧
    (iterStep env st).1.history = some (finalizeHistoryEntry
      (addIterationToHistory h (createIterationRecord (env.iterStartTime st.iteration)
        (env.iterEndTime st.iteration) res.output res.promiseTag))
      LoopStatus.completed env.elapsed) ∧
    (iterStep env st).1.trace = st.trace ++
      [LoopEvent.iterStart st.iteration, LoopEvent.iterEnd st.iteration,
       LoopEvent.statusChange LoopStatus.completed, LoopEvent.errorLogged e] := by
  simp [iterStep, hr, hc, runIterationModel, updateStatus, finalizeAndSave, hh, hsave]

lemma postLoop_max (cfg : RalphConfig) (env : LoopEnv) (st : LoopModelState) (h : HistoryEntry)
    (hb : cfg.unlimited = false) (hge : cfg.maxIterations ≤ st.iteration)
    (hh : st.history = some h) :
    (postLoop cfg env st).snap.status = LoopStatus.max_reached ∧
    (postLoop cfg env st).iteration = st.iteration ∧
    (postLoop cfg env st).snap.currentIteration = st.snap.currentIteration ∧
    LoopEvent.statusChange LoopStatus.max_reached ∈ (postLoop cfg env st).trace ∧
    (env.save = none → (postLoop cfg env st).thrown = st.thrown) ∧
    (∀ e, env.save = some e → (postLoop cfg env st).thrown = some e) ∧
    (postLoop cfg env st).history
      = some (finalizeHistoryEntry h LoopStatus.max_reached env.elapsed) := by
  cases hsave : env.save with
  | none => simp [postLoop, hb, hge, finalizeAndSave, updateStatus, hh, hsave]
  | some e => simp [postLoop, hb, hge, finalizeAndSave, updateStatus, hh, hsave]

lemma loop_runs_to_max (cfg : RalphConfig) (env : LoopEnv) :
    ∀ (fuel : Nat) (st : LoopModelState),
    cfg.unlimited = false →
    st.isRunning = true → st.isPaused = false →
    st.snap.currentIteration = st.iteration →
    st.thrown = none →
    st.history.isSome = true →
    st.iteration ≤ cfg.maxIterations →
    (∀ j, st.iteration < j → j ≤ cfg.maxIterations → neverStopsOutcome (env.runner j) = true) →
    cfg.maxIterations - st.iteration < fuel →
    (loopGo cfg env fuel st).snap.status = LoopStatus.max_reached ∧
    (loopGo cfg env fuel st).iteration = cfg.maxIterations ∧
    (loopGo cfg env fuel st).snap.currentIteration = cfg.maxIterations ∧
    LoopEvent.statusChange LoopStatus.max_reached ∈ (loopGo cfg env fuel st).trace ∧
    (env.save = none → (loopGo cfg env fuel st).thrown = none) ∧
    (∀ e, env.save = some e → (loopGo cfg env fuel st).thrown = some e) := by
  intro fuel
  induction fuel with
  | zero => intro st _ _ _ _ _ _ _ _ hfuel; omega
  | succ fuel ih =>
      intro st hb hrun hpause hcur hthrown hhist hle hbenign hfuel
      rcases Nat.lt_or_ge st.iteration cfg.maxIterations with hlt | hge
      · -- the loop runs another pass
        have hsc : shouldContinue cfg st = true := by simp [shouldContinue, hrun, hlt]
        have hpw : pauseWait env st = st := by simp [pauseWait, hpause]
        rw [loopGo_succ cfg env fuel st hsc (by rw [hpw]; exact hrun), hpw]
        have hb2 := hbenign (st.iteration + 1) (Nat.lt_succ_self _) hlt
        cases houtcome : env.runner (st.iteration + 1) with
        | ok res chunks =>
          -- a resolved invocation with no completion and no intervention tag
          rw [houtcome] at hb2
          simp only [neverStopsOutcome, Bool.and_eq_true, Bool.not_eq_true'] at hb2
          obtain ⟨hcomp, hint⟩ := hb2
          have hlem := iterStep_ok_noncomplete env (bumpIteration st) res chunks houtcome hcomp
          rcases hiter : iterStep env (bumpIteration st) with ⟨st4, b4⟩
          rw [hiter] at hlem
          obtain ⟨hb4, hrun4, hit4, hcur4, hth4, hpause4, _, hhist4⟩ := hlem
          subst hb4
          have hhist4' : st4.history.isSome = true := by
            rcases hsome : st.history with _ | hentry
            · rw [hsome] at hhist; simp at hhist
            · rw [hhist4 hentry hsome]; rfl
          refine ih st4 hb (by rw [hrun4]; simp [hrun]) (by rw [hpause4 hint]; simp [hpause]) ?_
            (by rw [hth4]; simp [hthrown]) hhist4' (by rw [hit4]; simp; omega) ?_ ?_
          · rw [hcur4, hit4]; simp
          · intro j hj1 hj2
            rw [hit4] at hj1
            simp at hj1
            exact hbenign j (by omega) hj2
          · rw [hit4]
            simp
            omega
        | exn msg =>
          -- the iteration threw; the exception is caught and the loop continues
          have hstep := iterStep_exn env (bumpIteration st) msg houtcome
          rw [hstep]
          refine ih _ hb hrun hpause rfl hthrown hhist (by simp; omega) ?_ (by simp; omega)
          intro j hj1 hj2
          simp at hj1
          exact hbenign j (by omega) hj2
      · -- the cap is reached: the loop exits and postLoop runs
        have hsc : shouldContinue cfg st = false := by
          simp [shouldContinue, hb]
          omega
        rw [loopGo_exit cfg env fuel st hsc]
        have heq : st.iteration = cfg.maxIterations := by omega
        obtain ⟨hentry, hsome⟩ : ∃ hentry, st.history = some hentry := by
          rcases hh : st.history with _ | hentry
          · rw [hh] at hhist; simp at hhist
          · exact ⟨hentry, rfl⟩
        have hpm := postLoop_max cfg env st hentry hb (by omega) hsome
        exact ⟨hpm.1, by rw [hpm.2.1]; omega, by rw [hpm.2.2.1, hcur]; omega,
          hpm.2.2.2.1, fun hs => by rw [hpm.2.2.2.2.1 hs]; exact hthrown,
          hpm.2.2.2.2.2.1⟩

lemma pauseWait_fields (env : LoopEnv) (st : LoopModelState)
    (hres : ∀ n, env.resume n = true) (hrun : st.isRunning = true) :
    (pauseWait env st).isRunning = true ∧
    (pauseWait env st).iteration = st.iteration ∧
    (pauseWait env st).snap.currentIteration = st.snap.currentIteration ∧
    (pauseWait env st).thrown = st.thrown ∧
    (pauseWait env st).history = st.history := by
  cases hp : st.isPaused <;>
    simp [pauseWait, hp, hrun, hres, resumeOp, updateStatus]

lemma finalizeHistoryEntry_iterations (e : HistoryEntry) (r : LoopStatus) (d : Int) :
    (finalizeHistoryEntry e r d).iterations = e.iterations := rfl

lemma finalizeHistoryEntry_result (e : HistoryEntry) (r : LoopStatus) (d : Int) :
    (finalizeHistoryEntry e r d).result = r := rfl

lemma loop_runs_to_completion (cfg : RalphConfig) (env : LoopEnv) (k : Nat) :
    ∀ (fuel : Nat) (st : LoopModelState),
    (∀ n, env.resume n = true) →
    env.save = none →
    st.isRunning = true →
    st.thrown = none →
    st.snap.currentIteration = st.iteration →
    (∀ j, st.iteration < j → j < k → benignOutcome (env.runner j) = true) →
    completesOutcome (env.runner k) = true →
    (cfg.unlimited = true ∨ k ≤ cfg.maxIterations) →
    st.iteration < k →
    (∀ h, st.history = some h → h.iterations.length = st.iteration) →
    st.history.isSome = true →
    k - st.iteration ≤ fuel →
    (loopGo cfg env fuel st).snap.status = LoopStatus.completed ∧
    (loopGo cfg env fuel st).iteration = k ∧
    (loopGo cfg env fuel st).snap.currentIteration = k ∧
    (loopGo cfg env fuel st).isRunning = false ∧
    (loopGo cfg env fuel st).thrown = none ∧
    (∃ h, (loopGo cfg env fuel st).history = some h ∧
        h.result = LoopStatus.completed ∧ h.iterations.length = k) ∧
    (∃ pre, (loopGo cfg env fuel st).trace =
        pre ++ [LoopEvent.persisted, LoopEvent.runComplete, LoopEvent.notifyComplete k]) := by
  intro fuel
  induction fuel with
  | zero => intro st _ _ _ _ _ _ _ _ hlt _ _ hfuel; omega
  | succ fuel ih =>
      intro st hres hsave hrun hthrown hcur hbenign hcompl hbound hlt hhlen hhsome hfuel
      have hsc : shouldContinue cfg st = true := by
        rcases hbound with h | h
        · simp [shouldContinue, hrun, h]
        · simp [shouldContinue, hrun]
          right
          omega
      obtain ⟨hpw1, hpw2, hpw3, hpw4, hpw5⟩ := pauseWait_fields env st hres hrun
      rw [loopGo_succ cfg env fuel st hsc hpw1]
      have hbit : (bumpIteration (pauseWait env st)).iteration = st.iteration + 1 := by
        simp [hpw2]
      rcases Nat.lt_or_ge (st.iteration + 1) k with hlt2 | hge2
      · -- a benign pass strictly before k
        have hb2 := hbenign (st.iteration + 1) (Nat.lt_succ_self _) hlt2
        cases houtcome : env.runner (st.iteration + 1) with
        | exn msg => rw [houtcome] at hb2; simp [benignOutcome] at hb2
        | ok res chunks =>
          rw [houtcome] at hb2
          simp only [benignOutcome, Bool.not_eq_true'] at hb2
          have hr : env.runner (bumpIteration (pauseWait env st)).iteration
              = IterOutcome.ok res chunks := by rw [hbit]; exact houtcome
          have hlem := iterStep_ok_noncomplete env (bumpIteration (pauseWait env st))
            res chunks hr hb2
          rcases hiter : iterStep env (bumpIteration (pauseWait env st)) with ⟨st4, b4⟩
          rw [hiter] at hlem
          obtain ⟨hb4, hrun4, hit4, hcur4, hth4, _, _, hhist4⟩ := hlem
          subst hb4
          obtain ⟨hentry, hsome⟩ : ∃ hentry, st.history = some hentry := by
            rcases hh : st.history with _ | hentry
            · rw [hh] at hhsome; simp at hhsome
            · exact ⟨hentry, rfl⟩
          have hsomeB : (bumpIteration (pauseWait env st)).history = some hentry := by
            simp [hpw5, hsome]
          have hh4 := hhist4 hentry hsomeB
          refine ih st4 hres hsave (by rw [hrun4]; simp [hpw1]) (by rw [hth4]; simp [hpw4, hthrown])
            (by rw [hcur4, hit4]; simp [hpw3, hcur, hpw2, hbit]) ?_ hcompl hbound
            (by rw [hit4, hbit]; omega) ?_ ?_ (by rw [hit4, hbit]; omega)
          · intro j hj1 hj2
            rw [hit4, hbit] at hj1
            exact hbenign j (by omega) hj2
          · intro h' hh'
            rw [hh4] at hh'
            have : h' = addIterationToHistory hentry
                (createIterationRecord
                  (env.iterStartTime (bumpIteration (pauseWait env st)).iteration)
                  (env.iterEndTime (bumpIteration (pauseWait env st)).iteration)
                  res.output res.promiseTag) := by
              exact (Option.some.inj hh').symm
            subst this
            rw [addIterationToHistory_length, hhlen hentry hsome, hit4, hbit]
          · rw [hh4]; rfl
      · -- the completing pass: st.iteration + 1 = k
        have hk : st.iteration + 1 = k := by omega
        cases houtcome : env.runner k with
        | exn msg => rw [houtcome] at hcompl; simp [completesOutcome] at hcompl
        | ok res chunks =>
          rw [houtcome] at hcompl
          simp only [completesOutcome] at hcompl
          obtain ⟨hentry, hsome⟩ : ∃ hentry, st.history = some hentry := by
            rcases hh : st.history with _ | hentry
            · rw [hh] at hhsome; simp at hhsome
            · exact ⟨hentry, rfl⟩
          have hr : env.runner (bumpIteration (pauseWait env st)).iteration
              = IterOutcome.ok res chunks := by rw [hbit, hk]; exact houtcome
          have hsomeB : (bumpIteration (pauseWait env st)).history = some hentry := by
            simp [hpw5, hsome]
          have hlem := iterStep_complete_saveok env (bumpIteration (pauseWait env st))
            res chunks hentry hr hcompl hsomeB hsave
          rcases hiter : iterStep env (bumpIteration (pauseWait env st)) with ⟨st4, b4⟩
          rw [hiter] at hlem
          obtain ⟨hb4, hst4, hrn4, hth4, hit4, hcur4, hhist4, htr4⟩ := hlem
          subst hb4
          refine ⟨hst4, ?_, ?_, hrn4, ?_, ?_, ?_⟩
          · rw [hit4, hbit, hk]
          · rw [hcur4]
            simp [hpw3, hcur, hpw2, hbit]
            omega
          · rw [hth4]; simp [hpw4, hthrown]
          · refine ⟨_, hhist4, finalizeHistoryEntry_result _ _ _, ?_⟩
            rw [finalizeHistoryEntry_iterations, addIterationToHistory_length,
              hhlen hentry hsome]
            omega
          · refine ⟨(bumpIteration (pauseWait env st)).trace ++
              [LoopEvent.iterStart k, LoopEvent.iterEnd k,
               LoopEvent.statusChange LoopStatus.completed], ?_⟩
            rw [htr4, hbit, hk]
            simp

/-- Witness for C10 (amended): a marker with a newline-laden payload is
trimmed, collapsed and returned. -/
theorem commit_message_shape_witness :
    findCommit "<commit_message> fix\n\nbug </commit_message>".data
        = some ("<commit_message> fix\n\nbug </commit_message>".data, " fix\n\nbug ".data) ∧
    parseCommitMessage "<commit_message> fix\n\nbug </commit_message>".data
        = some ((collapseNl (jsTrim " fix\n\nbug ".data)).take 200) :=
  ⟨by decide,
    (commit_message_shape "<commit_message> fix\n\nbug </commit_message>".data).2.1
      "<commit_message> fix\n\nbug </commit_message>".data " fix\n\nbug ".data
      (by decide) (by decide)⟩

lemma startOp_some (cfg : RalphConfig) (env : LoopEnv) (fuel : Nat) (st : LoopModelState)
    (prompt : List Char) (hne : prompt ≠ []) :
    startOp cfg env fuel st (some prompt) =
      loopGo cfg env fuel
        { snap := { status := LoopStatus.running, currentIteration := 0, output := [],
                    lastPromiseTag := none, error := none }
          isRunning := true
          isPaused := st.isPaused
          history := some (createHistoryEntry env.newId env.newTimestamp cfg prompt)
          activeProcess := st.activeProcess
          iteration := 0
          trace := st.trace ++ [LoopEvent.statusChange LoopStatus.running]
          thrown := st.thrown } := by
  cases prompt with
  | nil => exact absurd rfl hne
  | cons c cs => simp [startOp, executeLoop, updateStatus]

/-- Claim C2: for every run whose runner produces non-complete results
up to iteration `k` and a COMPLETE-parsing output at iteration `k` (with
`k` within the cap or the run unbounded, pauses always resumed and the
history write succeeding), the loop ends in status `completed` with
`currentIteration = k`, the history entry holds exactly `k` iteration
records and is finalized as completed, the loop performs no further
iterations (it returns at iteration `k` with the running flag cleared,
whatever iteration budget remains), and the finalize-and-persist of the
history entry happens before the completion notification: the event
trace ends with the persist, the `onComplete` callback, and only then
the completion notification. -/
theorem loop_completes_at_signal (cfg : RalphConfig) (env : LoopEnv)
    (prompt : List Char) (k fuel : Nat)
    (hne : prompt ≠ [])
    (hres : ∀ n, env.resume n = true)
    (hsave : env.save = none)
    (hk : 1 ≤ k)
    (hbenign : ∀ j, 1 ≤ j → j < k → benignOutcome (env.runner j) = true)
    (hcompl : completesOutcome (env.runner k) = true)
    (hbound : cfg.unlimited = true ∨ k ≤ cfg.maxIterations)
    (hfuel : k ≤ fuel) :
    (startOp cfg env fuel initState (some prompt)).snap.status = LoopStatus.completed ∧
    (startOp cfg env fuel initState (some prompt)).snap.currentIteration = k ∧
    (startOp cfg env fuel initState (some prompt)).iteration = k ∧
    (startOp cfg env fuel initState (some prompt)).isRunning = false ∧
    (startOp cfg env fuel initState (some prompt)).thrown = none ∧
    (∃ h, (startOp cfg env fuel initState (some prompt)).history = some h ∧
        h.result = LoopStatus.completed ∧ h.iterations.length = k) ∧
    (∃ pre, (startOp cfg env fuel initState (some prompt)).trace =
        pre ++ [LoopEvent.persisted, LoopEvent.runComplete, LoopEvent.notifyComplete k]) := by
  rw [startOp_some cfg env fuel initState prompt hne]
  have T := loop_runs_to_completion cfg env k fuel
    { snap := { status := LoopStatus.running, currentIteration := 0, output := [],
                lastPromiseTag := none, error := none }
      isRunning := true
      isPaused := initState.isPaused
      history := some (createHistoryEntry env.newId env.newTimestamp cfg prompt)
      activeProcess := initState.activeProcess
      iteration := 0
      trace := initState.trace ++ [LoopEvent.statusChange LoopStatus.running]
      thrown := initState.thrown }
    hres hsave rfl rfl rfl
    (fun j hj1 hj2 => hbenign j hj1 hj2)
    hcompl hbound hk
    (fun h hh => by
      have : createHistoryEntry env.newId env.newTimestamp cfg prompt = h :=
        Option.some.inj hh
      rw [← this]
      rfl)
    rfl (by omega)
  exact ⟨T.1, T.2.2.1, T.2.1, T.2.2.2.1, T.2.2.2.2.1, T.2.2.2.2.2.1, T.2.2.2.2.2.2⟩

/-- Witness for C2: a cap-5 run whose mock runner returns non-complete
results on iterations 1–2 and a complete marker on iteration 3 ends
completed at iteration 3 with exactly three history records. -/
theorem loop_completes_at_signal_witness :
    (startOp wCfg (wEnvComplete 3) 3 initState (some "go".data)).snap.status
        = LoopStatus.completed ∧
    (startOp wCfg (wEnvComplete 3) 3 initState (some "go".data)).snap.currentIteration = 3 ∧
    (∃ h, (startOp wCfg (wEnvComplete 3) 3 initState (some "go".data)).history = some h ∧
        h.result = LoopStatus.completed ∧ h.iterations.length = 3) := by
  have T := loop_completes_at_signal wCfg (wEnvComplete 3) "go".data 3 3
    (by decide) (fun _ => rfl) rfl (by decide)
    (by intro j h1 h2; interval_cases j <;> decide)
    (by decide) (Or.inr (by decide)) (by decide)
  exact ⟨T.1, T.2.1, T.2.2.2.2.2.1⟩

/-- Claim C3: the loop's continuation condition is exactly "running flag
set AND (unbounded OR iteration below the cap)"; hence a bounded run
with cap `N` whose runner never signals completion or intervention
executes exactly `N` iterations and ends in `max_reached` with
`currentIteration = N`, while an unbounded run ignores the cap: with a
cap of 5 but the unlimited flag set, a runner that completes at
iteration 10 still ends in `completed` at iteration 10. -/
theorem continuation_condition_and_cap :
    (∀ (cfg : RalphConfig) (st : LoopModelState),
        shouldContinue cfg st = true ↔
          (st.isRunning = true ∧
            (cfg.unlimited = true ∨ st.iteration < cfg.maxIterations))) ∧
    (∀ (cfg : RalphConfig) (env : LoopEnv) (prompt : List Char) (fuel : Nat),
        cfg.unlimited = false → prompt ≠ [] → env.save = none →
        (∀ j, 1 ≤ j → j ≤ cfg.maxIterations → neverStopsOutcome (env.runner j) = true) →
        cfg.maxIterations < fuel →
        (startOp cfg env fuel initState (some prompt)).snap.status = LoopStatus.max_reached ∧
        (startOp cfg env fuel initState (some prompt)).iteration = cfg.maxIterations ∧
        (startOp cfg env fuel initState (some prompt)).snap.currentIteration
          = cfg.maxIterations) ∧
    (∀ (cfg : RalphConfig) (env : LoopEnv) (prompt : List Char) (fuel : Nat),
        cfg.unlimited = true → cfg.maxIterations = 5 → prompt ≠ [] →
        (∀ n, env.resume n = true) → env.save = none →
        (∀ j, 1 ≤ j → j < 10 → benignOutcome (env.runner j) = true) →
        completesOutcome (env.runner 10) = true →
        10 ≤ fuel →
        (startOp cfg env fuel initState (some prompt)).snap.status = LoopStatus.completed ∧
        (startOp cfg env fuel initState (some prompt)).snap.currentIteration = 10) := by
  refine ⟨?_, ?_, ?_⟩
  · intro cfg st
    simp [shouldContinue]
  · intro cfg env prompt fuel hb hne hsave hbenign hfuel
    rw [startOp_some cfg env fuel initState prompt hne]
    have T := loop_runs_to_max cfg env fuel
      { snap := { status := LoopStatus.running, currentIteration := 0, output := [],
                  lastPromiseTag := none, error := none }
        isRunning := true
        isPaused := initState.isPaused
        history := some (createHistoryEntry env.newId env.newTimestamp cfg prompt)
        activeProcess := initState.activeProcess
        iteration := 0
        trace := initState.trace ++ [LoopEvent.statusChange LoopStatus.running]
        thrown := initState.thrown }
      hb rfl rfl rfl rfl rfl (Nat.zero_le _)
      (fun j hj1 hj2 => hbenign j hj1 hj2) (by omega)
    exact ⟨T.1, T.2.1, T.2.2.1⟩
  · intro cfg env prompt fuel hu hcap hne hres hsave hbenign hcompl hfuel
    rw [startOp_some cfg env fuel initState prompt hne]
    have T := loop_runs_to_completion cfg env 10 fuel
      { snap := { status := LoopStatus.running, currentIteration := 0, output := [],
                  lastPromiseTag := none, error := none }
        isRunning := true
        isPaused := initState.isPaused
        history := some (createHistoryEntry env.newId env.newTimestamp cfg prompt)
        activeProcess := initState.activeProcess
        iteration := 0
        trace := initState.trace ++ [LoopEvent.statusChange LoopStatus.running]
        thrown := initState.thrown }
      hres hsave rfl rfl rfl
      (fun j hj1 hj2 => hbenign j hj1 hj2)
      hcompl (Or.inl hu) (by show (0 : Nat) < 10; omega)
      (fun h hh => by
        have : createHistoryEntry env.newId env.newTimestamp cfg prompt = h :=
          Option.some.inj hh
        rw [← this]
        rfl)
      rfl (by show 10 - (0 : Nat) ≤ fuel; omega)
    exact ⟨T.1, T.2.2.1⟩

/-- Witness for C3: a bounded cap-1 run with a benign runner ends at
`max_reached` with one iteration, and an unlimited cap-5 run completing
at iteration 10 ends completed at iteration 10. -/
theorem continuation_condition_and_cap_witness :
    ((startOp wCfgOne (wEnvComplete 99) 2 initState (some "go".data)).snap.status
        = LoopStatus.max_reached ∧
      (startOp wCfgOne (wEnvComplete 99) 2 initState (some "go".data)).snap.currentIteration
        = 1) ∧
    ((startOp { wCfg with unlimited := true } (wEnvComplete 10) 10 initState
          (some "go".data)).snap.status = LoopStatus.completed ∧
      (startOp { wCfg with unlimited := true } (wEnvComplete 10) 10 initState
          (some "go".data)).snap.currentIteration = 10) := by
  constructor
  · have T := continuation_condition_and_cap.2.1 wCfgOne (wEnvComplete 99) "go".data 2
      rfl (by decide) rfl
      (by
        intro j h1 h2
        simp [wCfgOne, wCfg] at h2
        have hj : j = 1 := by omega
        subst hj
        decide)
      (by decide)
    exact ⟨T.1, T.2.2⟩
  · have T := continuation_condition_and_cap.2.2 { wCfg with unlimited := true }
      (wEnvComplete 10) "go".data 10 rfl rfl (by decide) (fun _ => rfl) rfl
      (by intro j h1 h2; interval_cases j <;> decide)
      (by decide) (by decide)
    exact T

/-- Claim C4: in the middle of an active run (running, not paused,
budget remaining), an iteration whose invocation reports failure only
logs the error and the loop proceeds to the next iteration; an iteration
that throws is caught at the iteration boundary, the message is stored
in the state's error field, the error is logged, and the loop proceeds
to the next iteration rather than propagating (the running flag stays
set, nothing is thrown, and evaluation continues with the remaining
fuel). -/
theorem failures_do_not_stop_the_loop (cfg : RalphConfig) (env : LoopEnv)
    (st : LoopModelState) (fuel : Nat)
    (hrun : st.isRunning = true) (hpause : st.isPaused = false)
    (hbudget : cfg.unlimited = true ∨ st.iteration < cfg.maxIterations) :
    (∀ res chunks, env.runner (st.iteration + 1) = IterOutcome.ok res chunks →
        res.success = false →
        res.promiseTag.any indicatesCompletion = false →
        res.promiseTag.any requiresUserIntervention = false →
        ∃ st4, loopGo cfg env (fuel + 1) st = loopGo cfg env fuel st4 ∧
          st4.isRunning = true ∧ st4.iteration = st.iteration + 1 ∧
          st4.thrown = st.thrown ∧
          LoopEvent.errorLogged (res.error.getD []) ∈ st4.trace) ∧
    (∀ msg, env.runner (st.iteration + 1) = IterOutcome.exn msg →
        ∃ st4, loopGo cfg env (fuel + 1) st = loopGo cfg env fuel st4 ∧
          st4.isRunning = true ∧ st4.iteration = st.iteration + 1 ∧
          st4.snap.error = some msg ∧ st4.thrown = st.thrown ∧
          LoopEvent.errorLogged msg ∈ st4.trace) := by
  have hsc : shouldContinue cfg st = true := by
    rcases hbudget with h | h <;> simp [shouldContinue, hrun, h]
  have hpw : pauseWait env st = st := by simp [pauseWait, hpause]
  constructor
  · intro res chunks hr hs hcomp hint
    have hrB : env.runner (bumpIteration st).iteration = IterOutcome.ok res chunks := by
      simp only [bumpIteration_iteration]
      exact hr
    have hlem := iterStep_ok_noncomplete env (bumpIteration st) res chunks hrB hcomp
    rcases hiter : iterStep env (bumpIteration st) with ⟨st4, b4⟩
    rw [hiter] at hlem
    obtain ⟨hb4, hrun4, hit4, _, hth4, _, hlog4, _⟩ := hlem
    subst hb4
    refine ⟨st4, ?_, ?_, ?_, ?_, ?_⟩
    · rw [loopGo_succ cfg env fuel st hsc (by rw [hpw]; exact hrun), hpw, hiter]
    · rw [hrun4]; simp [hrun]
    · rw [hit4]; simp
    · rw [hth4]; simp
    · exact hlog4 hs hint
  · intro msg hr
    have hrB : env.runner (bumpIteration st).iteration = IterOutcome.exn msg := by
      simp only [bumpIteration_iteration]
      exact hr
    have hstep := iterStep_exn env (bumpIteration st) msg hrB
    refine ⟨{ bumpIteration st with
        trace := (bumpIteration st).trace ++ [LoopEvent.errorLogged msg]
        snap := { (bumpIteration st).snap with error := some msg } },
      ?_, ?_, ?_, ?_, ?_, ?_⟩
    · rw [loopGo_succ cfg env fuel st hsc (by rw [hpw]; exact hrun), hpw, hstep]
    · exact hrun
    · rfl
    · rfl
    · rfl
    · simp

/-- Witness for C4: with a runner reporting a failed invocation at
iteration 1, the loop continues (equals a further `loopGo` call on a
still-running state) and logs the error. -/
theorem failures_do_not_stop_the_loop_witness :
    ∃ st4, loopGo wCfg
        { wEnvSaveFail with runner := fun _ => IterOutcome.ok failedResult [], save := none }
        1 (bumpIteration initState |> fun s => { s with isRunning := true, iteration := 0 })
      = loopGo wCfg
        { wEnvSaveFail with runner := fun _ => IterOutcome.ok failedResult [], save := none }
        0 st4 ∧
      st4.isRunning = true ∧
      LoopEvent.errorLogged "boom".data ∈ st4.trace := by
  have T := (failures_do_not_stop_the_loop wCfg
    { wEnvSaveFail with runner := fun _ => IterOutcome.ok failedResult [], save := none }
    { initState with isRunning := true } 0 rfl rfl (Or.inr (by decide))).1
    failedResult [] rfl (by decide) (by decide) (by decide)
  obtain ⟨st4, h1, h2, _, _, h5⟩ := T
  exact ⟨st4, h1, h2, h5⟩

/-- Counterexample for C5: the claim says no public operation of the
control loop ever throws, but when `saveHistoryEntry` throws while
finalizing a `max_reached` run (lines 218–222 are outside the
iteration's try/catch), the exception propagates out of `executeLoop`
and the promise returned by `start()` rejects: here a bounded cap-1 run
whose history write fails ends with a propagated exception, even though
the terminal status was already reported. -/
theorem start_propagates_save_failure_counterexample :
    (startOp wCfgOne wEnvSaveFail 2 initState none).thrown
        = some "ENOSPC: no space left on device".data ∧
    (startOp wCfgOne wEnvSaveFail 2 initState none).snap.status
        = LoopStatus.max_reached := by
  refine ⟨by decide, by decide⟩

/-- Claim C5 (amended): a failure of the history persistence step never
prevents the run from reporting its terminal status — the status change
is made and the observers notified before the write is attempted, in
the max-reached path (shown here for any bounded run whose write
throws) and in the completed path (where the throw is even caught by
the iteration handler, surfaced in the state's error field, and the
loop continues rather than propagating); `pause`, `resume`, `stop` and
`reset` never throw.  However, `start` is not exception-free: a
persistence failure during finalization of a `max_reached` (or
`cancelled`) run propagates out of it, as the counterexample shows. -/
theorem persistence_failure_reporting (cfg : RalphConfig) (env : LoopEnv) :
    (∀ (prompt : List Char) (fuel : Nat) (e : List Char),
        cfg.unlimited = false → prompt ≠ [] → env.save = some e →
        (∀ j, 1 ≤ j → j ≤ cfg.maxIterations → neverStopsOutcome (env.runner j) = true) →
        cfg.maxIterations < fuel →
        (startOp cfg env fuel initState (some prompt)).snap.status = LoopStatus.max_reached ∧
        LoopEvent.statusChange LoopStatus.max_reached
          ∈ (startOp cfg env fuel initState (some prompt)).trace ∧
        (startOp cfg env fuel initState (some prompt)).thrown = some e) ∧
    (∀ (st : LoopModelState) (fuel : Nat) (res : ClaudeProcessResult)
        (chunks : List (List Char)) (h : HistoryEntry) (e : List Char),
        st.isRunning = true → st.isPaused = false →
        (cfg.unlimited = true ∨ st.iteration < cfg.maxIterations) →
        st.history = some h →
        env.runner (st.iteration + 1) = IterOutcome.ok res chunks →
        res.promiseTag.any indicatesCompletion = true →
        env.save = some e →
        ∃ st4, loopGo cfg env (fuel + 1) st = loopGo cfg env fuel st4 ∧
          st4.snap.status = LoopStatus.completed ∧
          LoopEvent.statusChange LoopStatus.completed ∈ st4.trace ∧
          st4.snap.error = some e ∧
          st4.thrown = st.thrown ∧
          st4.isRunning = st.isRunning) ∧
    (∀ st : LoopModelState,
        (pauseOp st).thrown = st.thrown ∧ (resumeOp st).thrown = st.thrown ∧
        (stopOp st).thrown = st.thrown ∧ (resetOp st).thrown = st.thrown) := by
  refine ⟨?_, ?_, ?_⟩
  · intro prompt fuel e hb hne hsave hbenign hfuel
    rw [startOp_some cfg env fuel initState prompt hne]
    have T := loop_runs_to_max cfg env fuel
      { snap := { status := LoopStatus.running, currentIteration := 0, output := [],
                  lastPromiseTag := none, error := none }
        isRunning := true
        isPaused := initState.isPaused
        history := some (createHistoryEntry env.newId env.newTimestamp cfg prompt)
        activeProcess := initState.activeProcess
        iteration := 0
        trace := initState.trace ++ [LoopEvent.statusChange LoopStatus.running]
        thrown := initState.thrown }
      hb rfl rfl rfl rfl rfl (Nat.zero_le _)
      (fun j hj1 hj2 => hbenign j hj1 hj2) (by omega)
    exact ⟨T.1, T.2.2.2.1, T.2.2.2.2.2 e hsave⟩
  · intro st fuel res chunks h e hrun hpause hbudget hh hr hcomp hsave
    have hsc : shouldContinue cfg st = true := by
      rcases hbudget with h2 | h2 <;> simp [shouldContinue, hrun, h2]
    have hpw : pauseWait env st = st := by simp [pauseWait, hpause]
    have hrB : env.runner (bumpIteration st).iteration = IterOutcome.ok res chunks := by
      simp only [bumpIteration_iteration]
      exact hr
    have hhB : (bumpIteration st).history = some h := by
      simp only [bumpIteration_history]
      exact hh
    have hlem := iterStep_complete_savefail env (bumpIteration st) res chunks h e
      hrB hcomp hhB hsave
    rcases hiter : iterStep env (bumpIteration st) with ⟨st4, b4⟩
    rw [hiter] at hlem
    obtain ⟨hb4, hst4, herr4, hrn4, hth4, _, _, htr4⟩ := hlem
    subst hb4
    refine ⟨st4, ?_, hst4, ?_, herr4, ?_, ?_⟩
    · rw [loopGo_succ cfg env fuel st hsc (by rw [hpw]; exact hrun), hpw, hiter]
    · rw [htr4]; simp
    · rw [hth4]; simp
    · rw [hrn4]; simp
  · intro st
    exact ⟨rfl, by cases h : st.isRunning <;> simp [resumeOp, h, updateStatus], rfl, rfl⟩

/-- Witness for C5 (amended): a concrete bounded run with a failing
history write still reports `max_reached` before the exception
propagates. -/
theorem persistence_failure_reporting_witness :
    (startOp wCfgOne wEnvSaveFail 2 initState (some "go".data)).snap.status
        = LoopStatus.max_reached ∧
    LoopEvent.statusChange LoopStatus.max_reached
        ∈ (startOp wCfgOne wEnvSaveFail 2 initState (some "go".data)).trace ∧
    (startOp wCfgOne wEnvSaveFail 2 initState (some "go".data)).thrown
        = some "ENOSPC: no space left on device".data := by
  exact (persistence_failure_reporting wCfgOne wEnvSaveFail).1 "go".data 2
    "ENOSPC: no space left on device".data rfl (by decide) rfl
    (by
      intro j h1 h2
      simp [wCfgOne, wCfg] at h2
      have hj : j = 1 := by omega
      subst hj
      decide)
    (by decide)

/-! ## Lemmas for the payload-required property of BLOCKED/DECIDE -/

lemma tryLazy_capture_ne_nil : ∀ (s brev b tm r : List Char),
    tryLazy brev s = some (b, tm, r) → b ≠ [] := by
  intro s
  induction s with
  | nil => intro brev b tm r h; exact absurd h (by simp [tryLazy])
  | cons c cs ih =>
      intro brev b tm r h
      simp only [tryLazy] at h
      cases hlt : isLineTerm c with
      | true => rw [hlt] at h; simp at h
      | false =>
          rw [hlt] at h
          simp only [Bool.false_eq_true, if_false] at h
          cases htc : tryClose cs with
          | some p =>
              obtain ⟨tm2, r2⟩ := p
              rw [htc] at h
              simp at h
              obtain ⟨hb, _, _⟩ := h
              rw [← hb]
              simp
          | none =>
              rw [htc] at h
              exact ih (c :: brev) b tm r h

lemma matchPayloadAt_content_ne_nil (kw s raw content : List Char)
    (h : matchPayloadAt kw s = some (raw, content)) : content ≠ [] := by
  unfold matchPayloadAt at h
  cases h1 : ciStrip "<promise>".data s with
  | none => rw [h1] at h; simp at h
  | some p1 =>
      obtain ⟨m1, r1⟩ := p1
      rw [h1] at h
      simp only at h
      cases h2 : ciStrip kw (skipWsSplit r1).2 with
      | none => rw [h2] at h; simp at h
      | some p2 =>
          obtain ⟨m2, r3⟩ := p2
          rw [h2] at h
          simp only at h
          obtain ⟨p, _, hp⟩ := List.exists_of_findSome?_eq_some h
          cases h3 : tryLazy [] p.2 with
          | none => rw [h3] at hp; simp at hp
          | some q =>
              obtain ⟨b, tm, r⟩ := q
              rw [h3] at hp
              simp at hp
              rw [← hp.2]
              exact tryLazy_capture_ne_nil p.2 [] b tm r h3

lemma findPayload_content_ne_nil : ∀ (s kw raw content : List Char),
    findPayload kw s = some (raw, content) → content ≠ [] := by
  intro s
  induction s with
  | nil => intro kw raw content h; exact absurd h (by simp [findPayload])
  | cons c cs ih =>
      intro kw raw content h
      simp only [findPayload] at h
      cases hm : matchPayloadAt kw (c :: cs) with
      | some p =>
          rw [hm] at h
          obtain ⟨raw2, content2⟩ := p
          simp at h
          rw [← h.2]
          exact matchPayloadAt_content_ne_nil kw (c :: cs) raw2 content2 hm
      | none =>
          rw [hm] at h
          exact ih kw raw content h

lemma isLineTerm_facts (c : Char) (h : isLineTerm c = true) :
    c.toLower ≠ '<' ∧ isJsWs c = true := by
  simp only [isLineTerm, Bool.or_eq_true, decide_eq_true_eq] at h
  rcases h with ((h | h) | h) | h <;> subst h <;> exact ⟨by decide, by decide⟩

lemma matchCompleteAt_cons_ne (c : Char) (r : List Char) (h : c.toLower ≠ '<') :
    matchCompleteAt (c :: r) = none := by
  have e : ciStrip "<promise>".data (c :: r) = none := by
    rw [show "<promise>".data = '<' :: "promise>".data from rfl]
    simp [ciStrip, h]
  simp [matchCompleteAt, e]

lemma matchPayloadAt_cons_ne (kw : List Char) (c : Char) (r : List Char)
    (h : c.toLower ≠ '<') : matchPayloadAt kw (c :: r) = none := by
  have e : ciStrip "<promise>".data (c :: r) = none := by
    rw [show "<promise>".data = '<' :: "promise>".data from rfl]
    simp [ciStrip, h]
  simp [matchPayloadAt, e]

lemma findComplete_append_heads : ∀ (pre rest : List Char),
    (∀ c ∈ pre, c.toLower ≠ '<') → findComplete rest = none →
    findComplete (pre ++ rest) = none := by
  intro pre
  induction pre with
  | nil => intro rest _ h; exact h
  | cons c cs ih =>
      intro rest hpre h
      have hm := matchCompleteAt_cons_ne c (cs ++ rest) (hpre c (by simp))
      have hrec := ih rest (fun d hd => hpre d (by simp [hd])) h
      show (match matchCompleteAt (c :: (cs ++ rest)) with
            | some raw => some raw
            | none => findComplete (cs ++ rest)) = none
      rw [hm]
      exact hrec

lemma findPayload_append_heads (kw : List Char) : ∀ (pre rest : List Char),
    (∀ c ∈ pre, c.toLower ≠ '<') → findPayload kw rest = none →
    findPayload kw (pre ++ rest) = none := by
  intro pre
  induction pre with
  | nil => intro rest _ h; exact h
  | cons c cs ih =>
      intro rest hpre h
      have hm := matchPayloadAt_cons_ne kw c (cs ++ rest) (hpre c (by simp))
      have hrec := ih rest (fun d hd => hpre d (by simp [hd])) h
      show (match matchPayloadAt kw (c :: (cs ++ rest)) with
            | some m => some m
            | none => findPayload kw (cs ++ rest)) = none
      rw [hm]
      exact hrec

lemma tryLazy_ltmid_close_none : ∀ (mid brev : List Char),
    (∀ c ∈ mid, isLineTerm c = true) →
    tryLazy brev (mid ++ "</promise>".data) = none := by
  intro mid
  induction mid with
  | nil => intro brev _; rfl
  | cons c cs ih =>
      intro brev hall
      have hc : isLineTerm c = true := hall c (by simp)
      simp only [List.cons_append, tryLazy, hc, if_true]

lemma wsAlts_mem_decomp : ∀ (l : List Char) (p : List Char × List Char),
    p ∈ wsAlts l → ∃ w, l = w ++ p.2 ∧ (∀ c ∈ w, isJsWs c = true) := by
  intro l
  induction l with
  | nil =>
      intro p hp
      simp [wsAlts] at hp
      subst hp
      exact ⟨[], rfl, by simp⟩
  | cons c cs ih =>
      intro p hp
      by_cases hc : isJsWs c = true
      · simp only [wsAlts, hc, if_true, List.mem_append, List.mem_map,
          List.mem_singleton] at hp
        rcases hp with ⟨q, hq, rfl⟩ | rfl
        · obtain ⟨w, hw, hws⟩ := ih q hq
          exact ⟨c :: w, by simp [hw], by
            intro d hd
            rcases List.mem_cons.mp hd with rfl | hd
            · exact hc
            · exact hws d hd⟩
        · exact ⟨[], rfl, by simp⟩
      · have hc2 : isJsWs c = false := by
          cases h2 : isJsWs c with
          | true => exact absurd h2 hc
          | false => rfl
        simp only [wsAlts, hc2, Bool.false_eq_true, if_false, List.mem_singleton] at hp
        subst hp
        exact ⟨[], rfl, by simp⟩

lemma split_lt_ws : ∀ (mid w r2 : List Char),
    (∀ c ∈ mid, isLineTerm c = true) →
    mid ++ "</promise>".data = w ++ r2 →
    (∀ c ∈ w, isJsWs c = true) →
    ∃ mid2, r2 = mid2 ++ "</promise>".data ∧ (∀ c ∈ mid2, isLineTerm c = true) := by
  intro mid
  induction mid with
  | nil =>
      intro w r2 _ heq hws
      cases w with
      | nil => exact ⟨[], heq.symm, by simp⟩
      | cons d w2 =>
          rw [show ([] : List Char) ++ "</promise>".data
            = '<' :: "/promise>".data from rfl] at heq
          simp only [List.cons_append, List.cons.injEq] at heq
          have : isJsWs d = true := hws d (by simp)
          rw [← heq.1] at this
          exact absurd this (by decide)
  | cons c cs ih =>
      intro w r2 hall heq hws
      cases w with
      | nil =>
          exact ⟨c :: cs, heq.symm, hall⟩
      | cons d w2 =>
          simp only [List.cons_append, List.cons.injEq] at heq
          obtain ⟨mid2, h1, h2⟩ := ih w2 r2 (fun x hx => hall x (by simp [hx]))
            heq.2 (fun x hx => hws x (by simp [hx]))
          exact ⟨mid2, h1, h2⟩

lemma findSome?_payload_none (a b2 c : List Char) :
    ∀ (l : List (List Char × List Char)),
    (∀ p ∈ l, tryLazy [] p.2 = none) →
    (l.findSome? fun p => match tryLazy [] p.2 with
      | some (b, tm, _) => some (a ++ b2 ++ c ++ p.1 ++ b ++ tm, b)
      | none => none) = none := by
  intro l
  induction l with
  | nil => intro _; rfl
  | cons q l ih =>
      intro hall
      rw [List.findSome?_cons]
      rw [hall q (by simp)]
      exact ih (fun p hp => hall p (by simp [hp]))

lemma matchPayloadAt_blocked_degenerate (mid : List Char)
    (hmid : ∀ c ∈ mid, isLineTerm c = true) :
    matchPayloadAt "blocked:".data
      ("<promise>BLOCKED:".data ++ (mid ++ "</promise>".data)) = none := by
  have e1 : ciStrip "<promise>".data
      ("<promise>BLOCKED:".data ++ (mid ++ "</promise>".data))
      = some ("<promise>".data, "BLOCKED:".data ++ (mid ++ "</promise>".data)) := rfl
  have e2 : skipWsSplit ("BLOCKED:".data ++ (mid ++ "</promise>".data))
      = ([], "BLOCKED:".data ++ (mid ++ "</promise>".data)) := rfl
  have e3 : ciStrip "blocked:".data ("BLOCKED:".data ++ (mid ++ "</promise>".data))
      = some ("BLOCKED:".data, mid ++ "</promise>".data) := rfl
  simp only [matchPayloadAt, e1, e2, e3]
  apply findSome?_payload_none
  intro p hp
  obtain ⟨w, heq, hws⟩ := wsAlts_mem_decomp _ p hp
  obtain ⟨mid2, hr2, hlt2⟩ := split_lt_ws mid w p.2 hmid heq hws
  rw [hr2]
  exact tryLazy_ltmid_close_none mid2 [] hlt2

lemma matchPayloadAt_decide_degenerate (mid : List Char)
    (hmid : ∀ c ∈ mid, isLineTerm c = true) :
    matchPayloadAt "decide:".data
      ("<promise>DECIDE:".data ++ (mid ++ "</promise>".data)) = none := by
  have e1 : ciStrip "<promise>".data
      ("<promise>DECIDE:".data ++ (mid ++ "</promise>".data))
      = some ("<promise>".data, "DECIDE:".data ++ (mid ++ "</promise>".data)) := rfl
  have e2 : skipWsSplit ("DECIDE:".data ++ (mid ++ "</promise>".data))
      = ([], "DECIDE:".data ++ (mid ++ "</promise>".data)) := rfl
  have e3 : ciStrip "decide:".data ("DECIDE:".data ++ (mid ++ "</promise>".data))
      = some ("DECIDE:".data, mid ++ "</promise>".data) := rfl
  simp only [matchPayloadAt, e1, e2, e3]
  apply findSome?_payload_none
  intro p hp
  obtain ⟨w, heq, hws⟩ := wsAlts_mem_decomp _ p hp
  obtain ⟨mid2, hr2, hlt2⟩ := split_lt_ws mid w p.2 hmid heq hws
  rw [hr2]
  exact tryLazy_ltmid_close_none mid2 [] hlt2

lemma parse_blocked_degenerate (mid : List Char)
    (hmid : ∀ c ∈ mid, isLineTerm c = true) :
    parsePromiseTag ("<promise>BLOCKED:".data ++ (mid ++ "</promise>".data))
      = ⟨none, none, none⟩ := by
  have hmid2 : ∀ c ∈ mid, c.toLower ≠ '<' := fun c hc => (isLineTerm_facts c (hmid c hc)).1
  have hfc : findComplete ("<promise>BLOCKED:".data ++ (mid ++ "</promise>".data)) = none := by
    show (match matchCompleteAt
          ('<' :: ("promise>BLOCKED:".data ++ (mid ++ "</promise>".data))) with
        | some raw => some raw
        | none => findComplete ("promise>BLOCKED:".data ++ (mid ++ "</promise>".data)))
      = none
    rw [show matchCompleteAt
        ('<' :: ("promise>BLOCKED:".data ++ (mid ++ "</promise>".data))) = none from rfl]
    exact findComplete_append_heads "promise>BLOCKED:".data _ (by decide)
      (findComplete_append_heads mid _ hmid2 (by decide))
  have hfb : findPayload "blocked:".data
      ("<promise>BLOCKED:".data ++ (mid ++ "</promise>".data)) = none := by
    show (match matchPayloadAt "blocked:".data
          ("<promise>BLOCKED:".data ++ (mid ++ "</promise>".data)) with
        | some m => some m
        | none => findPayload "blocked:".data
            ("promise>BLOCKED:".data ++ (mid ++ "</promise>".data)))
      = none
    rw [matchPayloadAt_blocked_degenerate mid hmid]
    exact findPayload_append_heads "blocked:".data "promise>BLOCKED:".data _ (by decide)
      (findPayload_append_heads "blocked:".data mid _ hmid2 (by decide))
  have hfd : findPayload "decide:".data
      ("<promise>BLOCKED:".data ++ (mid ++ "</promise>".data)) = none := by
    show (match matchPayloadAt "decide:".data
          ("<promise>BLOCKED:".data ++ (mid ++ "</promise>".data)) with
        | some m => some m
        | none => findPayload "decide:".data
            ("promise>BLOCKED:".data ++ (mid ++ "</promise>".data)))
      = none
    rw [show matchPayloadAt "decide:".data
        ("<promise>BLOCKED:".data ++ (mid ++ "</promise>".data)) = none from rfl]
    exact findPayload_append_heads "decide:".data "promise>BLOCKED:".data _ (by decide)
      (findPayload_append_heads "decide:".data mid _ hmid2 (by decide))
  unfold parsePromiseTag
  rw [hfc, hfb, hfd]

lemma parse_decide_degenerate (mid : List Char)
    (hmid : ∀ c ∈ mid, isLineTerm c = true) :
    parsePromiseTag ("<promise>DECIDE:".data ++ (mid ++ "</promise>".data))
      = ⟨none, none, none⟩ := by
  have hmid2 : ∀ c ∈ mid, c.toLower ≠ '<' := fun c hc => (isLineTerm_facts c (hmid c hc)).1
  have hfc : findComplete ("<promise>DECIDE:".data ++ (mid ++ "</promise>".data)) = none := by
    show (match matchCompleteAt
          ('<' :: ("promise>DECIDE:".data ++ (mid ++ "</promise>".data))) with
        | some raw => some raw
        | none => findComplete ("promise>DECIDE:".data ++ (mid ++ "</promise>".data)))
      = none
    rw [show matchCompleteAt
        ('<' :: ("promise>DECIDE:".data ++ (mid ++ "</promise>".data))) = none from rfl]
    exact findComplete_append_heads "promise>DECIDE:".data _ (by decide)
      (findComplete_append_heads mid _ hmid2 (by decide))
  have hfb : findPayload "blocked:".data
      ("<promise>DECIDE:".data ++ (mid ++ "</promise>".data)) = none := by
    show (match matchPayloadAt "blocked:".data
          ("<promise>DECIDE:".data ++ (mid ++ "</promise>".data)) with
        | some m => some m
        | none => findPayload "blocked:".data
            ("promise>DECIDE:".data ++ (mid ++ "</promise>".data)))
      = none
    rw [show matchPayloadAt "blocked:".data
        ("<promise>DECIDE:".data ++ (mid ++ "</promise>".data)) = none from rfl]
    exact findPayload_append_heads "blocked:".data "promise>DECIDE:".data _ (by decide)
      (findPayload_append_heads "blocked:".data mid _ hmid2 (by decide))
  have hfd : findPayload "decide:".data
      ("<promise>DECIDE:".data ++ (mid ++ "</promise>".data)) = none := by
    show (match matchPayloadAt "decide:".data
          ("<promise>DECIDE:".data ++ (mid ++ "</promise>".data)) with
        | some m => some m
        | none => findPayload "decide:".data
            ("promise>DECIDE:".data ++ (mid ++ "</promise>".data)))
      = none
    rw [matchPayloadAt_decide_degenerate mid hmid]
    exact findPayload_append_heads "decide:".data "promise>DECIDE:".data _ (by decide)
      (findPayload_append_heads "decide:".data mid _ hmid2 (by decide))
  unfold parsePromiseTag
  rw [hfc, hfb, hfd]

/-- Claim C9: a blocked or decide marker is only detected when its
payload capture is non-empty — whenever the BLOCKED/DECIDE pattern
matches, the captured payload has at least one character — and a marker
whose payload is empty (nothing between the delimiter and the closing
tag, or only line-terminator characters, which the payload pattern can
never consume) is not recognized: `parsePromiseTag` returns the all-null
signal of kind None on such texts. -/
theorem blocked_decide_payload_required :
    (∀ kw s raw content, findPayload kw s = some (raw, content) → content ≠ []) ∧
    (∀ mid, (∀ c ∈ mid, isLineTerm c = true) →
        parsePromiseTag ("<promise>BLOCKED:".data ++ (mid ++ "</promise>".data))
          = ⟨none, none, none⟩ ∧
        parsePromiseTag ("<promise>DECIDE:".data ++ (mid ++ "</promise>".data))
          = ⟨none, none, none⟩) := by
  constructor
  · intro kw s raw content h
    exact findPayload_content_ne_nil s kw raw content h
  · intro mid hmid
    exact ⟨parse_blocked_degenerate mid hmid, parse_decide_degenerate mid hmid⟩

/-- Witness for C9: the empty-payload and newline-payload markers parse
to the None signal, and a detected blocked marker's capture is
non-empty. -/
theorem blocked_decide_payload_required_witness :
    parsePromiseTag ("<promise>BLOCKED:".data ++ ([] ++ "</promise>".data))
        = ⟨none, none, none⟩ ∧
    parsePromiseTag ("<promise>DECIDE:".data ++ (['\n'] ++ "</promise>".data))
        = ⟨none, none, none⟩ ∧
    ("x".data ≠ []) := by
  refine ⟨(blocked_decide_payload_required.2 [] (by decide)).1,
    (blocked_decide_payload_required.2 ['\n'] (by decide)).2,
    blocked_decide_payload_required.1 "blocked:".data
      "<promise>BLOCKED: x</promise>".data
      "<promise>BLOCKED: x</promise>".data "x".data (by decide)⟩

end Ralph
